import Mathlib

/-!
Peer pool, peer binding, server and fast-sync selection of ethereumjs-client.

A shallow embedding of `lib/peerpool.js`, `lib/rlpxpeer.js`, `lib/rlpxserver.js`,
`lib/service.js` and `lib/sync/sync.js`, followed by the properties proved of it.

Conventions of the embedding

* A JavaScript object with identity (a peer, a server) carries a numeric `ref`.
* `EventEmitter.emit` and calls into collaborators are recorded as a list of
  effects returned next to the new state; listeners run synchronously, so the
  order of the list is the order of the calls.
* `console.log` calls have no effect on any state that is modelled and are
  left out.
* A name that a module reads without binding it raises `ReferenceError`, and a
  property read from `undefined` raises `TypeError`; `lib/sync/sync.js` requires
  only `events` and never sets `this.logger`.
* `bn.js` numbers are unbounded integers; block heights and total difficulties
  are natural numbers, differences of heights are integers.
* Timers run on a logical clock: a timer set at `now` with delay `d` is due at
  `now + d` and its callback runs at a turn of the event loop at or after that.
* `Math.random()` is an exact fraction in `[0, 1)`.
* `emit('error', ...)` on an emitter without an `error` listener throws; this
  is modelled for the loop of `Synchronizer.start`, whose course depends on it.
* Promises are run to completion: the callbacks that `bindProtocols` hands to
  `Promise.all` are taken in the order of the sessions.
-/

namespace EthereumJS

/-! ## Data model -/

/-- Negotiated status of the bound `eth` protocol handle (`peer.eth.status`). -/
structure EthStatus where
  td : Nat := 0
  bestHash : String := ""
deriving DecidableEq, Repr

/-- Bound `eth` protocol handle of a peer (`peer.eth`). -/
structure EthProtocol where
  status : EthStatus := {}
deriving DecidableEq, Repr

/-- A configured protocol descriptor: its declared name and accepted versions. -/
structure Protocol where
  name : String
  versions : List Nat := []
deriving DecidableEq, Repr

/-- The bound handle that `protocol.bind` resolves to, as far as the peer reads
it: its `name`. -/
structure BoundProtocol where
  name : String
deriving DecidableEq, Repr

/-- An `RlpxPeer` object.  `ref` is the object identity, `id` is `options.id`
(`none` is `undefined`), `server` is the owning server set by `accept`
(`none` is `null`, the value the constructor leaves), `idle` is `_idle`,
`eth` is the bound sync protocol handle read by the synchronizer, `protocols`
is the configured protocol list and `bound` the `Map` from name to bound
handle, in insertion order. -/
structure Peer where
  ref : Nat := 0
  id : Option String := none
  server : Option Nat := none
  idle : Bool := true
  eth : Option EthProtocol := none
  connected : Bool := false
  protocols : List Protocol := []
  bound : List (String × BoundProtocol) := []
deriving DecidableEq, Repr

/-- The `RlpxPeer` constructor called with `options.id` and `options.server`:
`this.server = options.server` is overwritten by the later `this.server = null`,
so the new peer has no owning server until `accept` sets one. -/
def Peer.new (ref : Nat) (id : Option String) (optionsServer : Option Nat) : Peer :=
  let assigned : Peer :=
    { ref := ref, id := id, server := optionsServer, idle := true, eth := none,
      connected := false }
  { assigned with server := none, connected := false }

/-- JavaScript truthiness of a peer identity: `undefined` and `''` are falsy. -/
def truthyId : Option String → Bool
  | none => false
  | some s => s != ""

/-- What a pool operation does to the outside: events it emits on itself and
calls it makes on a peer's owning server. -/
inductive Effect where
  | added (peer : Peer)
  | removed (peer : Peer)
  | banned (peer : Peer)
  | message (message : String) (protocol : String) (peer : Peer)
  | messageProtocol (protocol : String) (message : String) (peer : Peer)
  | serverBan (server : Nat) (peerId : Option String) (maxAge : Option Nat)
deriving DecidableEq, Repr

/-- The `PeerPool` object.  `pool` is the `Map` from identity to peer, kept in
insertion order as `Map` iteration does.  `wired` lists the peer objects on
which `connected` has installed its `message` and `error` handlers, one entry
per installation.  `listening` lists the servers on which `open` has installed
its `connected` and `disconnected` handlers, one entry per installation. -/
structure PeerPool where
  servers : List Nat := []
  maxPeers : Nat := 25
  pool : List (Option String × Peer) := []
  opened : Bool := false
  wired : List Nat := []
  listening : List Nat := []
deriving DecidableEq, Repr

namespace PeerPool

/-- A pool as the constructor leaves it. -/
def new (servers : List Nat) (maxPeers : Nat) : PeerPool :=
  { servers := servers, maxPeers := maxPeers, pool := [], opened := false, wired := [] }

/-- `Map.prototype.get` on the registry. -/
def get (s : PeerPool) (k : Option String) : Option Peer :=
  (s.pool.find? (fun e => e.1 == k)).map Prod.snd

/-- `Map.prototype.delete` on the registry: the pair of the new entries and
whether an entry was deleted. -/
def delete (s : PeerPool) (k : Option String) : PeerPool × Bool :=
  ({ s with pool := s.pool.filter (fun e => !(e.1 == k)) }, (s.get k).isSome)

/-- `Map.prototype.set` on the registry: an existing key keeps its place. -/
def set (s : PeerPool) (k : Option String) (v : Peer) : PeerPool :=
  if (s.get k).isSome then
    { s with pool := s.pool.map (fun e => if e.1 == k then (k, v) else e) }
  else
    { s with pool := s.pool ++ [(k, v)] }

/-- `get peers ()`. -/
def peers (s : PeerPool) : List Peer := s.pool.map Prod.snd

/-- `get size ()`. -/
def size (s : PeerPool) : Nat := s.peers.length

/-- `contains (peer)` for a peer object. -/
def contains (s : PeerPool) (peer : Peer) : Bool := (s.get peer.id).isSome

/-- `add (peer)`; `none` is a `null` or `undefined` argument. -/
def add (s : PeerPool) (peer : Option Peer) : PeerPool × List Effect :=
  match peer with
  | none => (s, [])
  | some p =>
    if truthyId p.id && !(s.get p.id).isSome then
      (s.set p.id p, [Effect.added p])
    else
      (s, [])

/-- `remove (peer)`; `none` is a `null` or `undefined` argument. -/
def remove (s : PeerPool) (peer : Option Peer) : PeerPool × List Effect :=
  match peer with
  | none => (s, [])
  | some p =>
    if truthyId p.id then
      if (s.delete p.id).2 then
        ((s.delete p.id).1, [Effect.removed p])
      else
        ((s.delete p.id).1, [])
    else
      (s, [])

/-- `ban (peer, maxAge)`; `maxAge = none` is an omitted argument. -/
def ban (s : PeerPool) (peer : Peer) (maxAge : Option Nat) : PeerPool × List Effect :=
  match peer.server with
  | none => (s, [])
  | some srv =>
    let r := s.remove (some peer)
    (r.1, [Effect.serverBan srv peer.id maxAge] ++ r.2 ++ [Effect.banned peer])

/-- `connected (peer)`: refuse at capacity, else install the handlers and add. -/
def connected (s : PeerPool) (peer : Peer) : PeerPool × List Effect :=
  if s.size ≥ s.maxPeers then (s, [])
  else add { s with wired := s.wired ++ [peer.ref] } (some peer)

/-- `disconnected (peer)`. -/
def disconnected (s : PeerPool) (peer : Peer) : PeerPool × List Effect :=
  s.remove (some peer)

/-- The `error` handler that `connected` installs on a peer. -/
def errorHandler (s : PeerPool) (peer : Peer) : PeerPool × List Effect :=
  if (s.get peer.id).isSome then s.ban peer none else (s, [])

/-- The `message` handler that `connected` installs on a peer. -/
def messageHandler (s : PeerPool) (peer : Peer) (message protocol : String) :
    PeerPool × List Effect :=
  if (s.get peer.id).isSome then
    (s, [Effect.message message protocol peer, Effect.messageProtocol protocol message peer])
  else (s, [])

/-- Run a handler once per installation, threading the state. -/
def runHandlers (h : PeerPool → PeerPool × List Effect) : Nat → PeerPool → PeerPool × List Effect
  | 0, s => (s, [])
  | n + 1, s =>
    let r := h s
    let r2 := runHandlers h n r.1
    (r2.1, r.2 ++ r2.2)

/-- The peer object emits `error`: every handler installed on it by the pool runs. -/
def peerError (s : PeerPool) (peer : Peer) : PeerPool × List Effect :=
  runHandlers (fun t => t.errorHandler peer) (s.wired.count peer.ref) s

/-- The peer object emits `message`: every handler installed on it by the pool runs. -/
def peerMessage (s : PeerPool) (peer : Peer) (message protocol : String) :
    PeerPool × List Effect :=
  runHandlers (fun t => t.messageHandler peer message protocol) (s.wired.count peer.ref) s

/-- `idle (filterFn)`.  The draw of `Math.random()` is the fraction
`num / den`; `Math.floor (r * n)` is then the quotient of `num * n` by `den`.
An index past the end of the array reads `undefined`. -/
def idle (s : PeerPool) (filterFn : Peer → Bool) (num den : Nat) : Option Peer :=
  let idle := s.peers.filter (fun p => p.idle && filterFn p)
  let index := (num * idle.length) / den
  idle[index]?

/-- A call on the pool, or an event raised by a peer object that the pool may
have installed handlers on. -/
inductive Op where
  | add (peer : Option Peer)
  | remove (peer : Option Peer)
  | connected (peer : Peer)
  | disconnected (peer : Peer)
  | ban (peer : Peer) (maxAge : Option Nat)
  | peerError (peer : Peer)
  | peerMessage (peer : Peer) (message protocol : String)
deriving DecidableEq, Repr

/-- The peer object an operation is given. -/
def Op.peer : Op → Option Peer
  | .add p => p
  | .remove p => p
  | .connected p => some p
  | .disconnected p => some p
  | .ban p _ => some p
  | .peerError p => some p
  | .peerMessage p _ _ => some p

/-- The operation is a `connected`, `disconnected` or `ban` call or an `error`
event of a peer. -/
def Op.lifecycle : Op → Bool
  | .connected _ => true
  | .disconnected _ => true
  | .ban _ _ => true
  | .peerError _ => true
  | _ => false

/-- Perform one operation. -/
def step (s : PeerPool) : Op → PeerPool × List Effect
  | .add p => s.add p
  | .remove p => s.remove p
  | .connected p => s.connected p
  | .disconnected p => s.disconnected p
  | .ban p maxAge => s.ban p maxAge
  | .peerError p => s.peerError p
  | .peerMessage p m pr => s.peerMessage p m pr

/-- Perform a sequence of operations, collecting what they emit. -/
def run (s : PeerPool) : List Op → PeerPool × List Effect
  | [] => (s, [])
  | op :: ops =>
    let r := s.step op
    let r2 := run r.1 ops
    (r2.1, r.2 ++ r2.2)

/-- Every `add` of the sequence is issued while the pool holds fewer than
`maxPeers` peers: the test `connected` makes before it calls `add`. -/
def addsBelowCapacity (s : PeerPool) : List Op → Bool
  | [] => true
  | .add p :: ops => decide (s.size < s.maxPeers) && addsBelowCapacity (s.add p).1 ops
  | op :: ops => addsBelowCapacity (s.step op).1 ops

/-- The registry is a `Map` filled through `add`: no key is falsy and no key
occurs twice. -/
def WF (s : PeerPool) : Prop :=
  (∀ e ∈ s.pool, truthyId e.1 = true) ∧ (s.pool.map Prod.fst).Nodup

instance (s : PeerPool) : Decidable s.WF := by
  unfold WF
  infer_instance

end PeerPool


/-! ## Synchronizer (`lib/sync/sync.js`) -/

/-- The `blocks` view of the chain collaborator: `chain.blocks.height` and
`chain.blocks.td`. -/
structure Chain where
  height : Nat := 0
  td : Nat := 0
deriving DecidableEq, Repr

/-- The `Synchronizer` object.  `timeout` is the pending force-sync timer set by
`start`, as the time at which it falls due; `none` when no timer is pending. -/
structure Synchronizer where
  minPeers : Nat := 3
  interval : Nat := 1000
  running : Bool := false
  forceSync : Bool := false
  timeout : Option Nat := none
deriving DecidableEq, Repr

namespace Synchronizer

/-- `syncable (peer)` returns `peer.eth`; the caller tests it for truthiness. -/
def syncable (peer : Peer) : Option EthProtocol := peer.eth

/-- `this.pool.peers.filter(this.syncable.bind(this))`: the peers that pass,
each paired with the truthy `eth` handle the filter saw. -/
def syncablePeers (pool : PeerPool) : List (Peer × EthProtocol) :=
  pool.peers.filterMap (fun p => (syncable p).map (fun e => (p, e)))

/-- Body of the `for` loop of `best`. -/
def bestStep (chain : Chain) (best : Option (Peer × EthProtocol)) (peer : Peer × EthProtocol) :
    Option (Peer × EthProtocol) :=
  let td := peer.2.status.td
  if (best.isNone && decide (chain.td ≤ td)) ||
      (match best with
        | some b => decide (b.2.status.td < td)
        | none => false) then
    some peer
  else best

/-- `best ()`; `none` is `undefined`. -/
def best (sy : Synchronizer) (pool : PeerPool) (chain : Chain) : Option Peer :=
  let peers := syncablePeers pool
  if decide (peers.length < sy.minPeers) && !sy.forceSync then none
  else (peers.foldl (bestStep chain) none).map Prod.fst

/-- What the loop of `best` holds after it has gone through the peers `seen`:
nothing chosen and every peer so far below the local total difficulty, or the
first heaviest peer so far chosen. -/
def LoopInv (chain : Chain) (seen : List Peer) :
    Option (Peer × EthProtocol) → Prop
  | none => ∀ q ∈ seen, ∀ e, q.eth = some e → e.status.td < chain.td
  | some b => b.1.eth = some b.2 ∧ chain.td ≤ b.2.status.td ∧
      ∃ pre post, seen = pre ++ b.1 :: post ∧
        (∀ q ∈ pre, ∀ e, q.eth = some e → e.status.td < b.2.status.td) ∧
        (∀ q ∈ post, ∀ e, q.eth = some e → e.status.td ≤ b.2.status.td)


/-- A synchronizer as the constructor leaves it. -/
def new (minPeers interval : Nat) : Synchronizer :=
  { minPeers := minPeers, interval := interval, running := false, forceSync := false,
    timeout := none }

/-- `start ()` up to the loop, called at time `now`: nothing when already
running, else set `running` and the force-sync timer `interval * 30` ahead. -/
def start (sy : Synchronizer) (now : Nat) : Synchronizer :=
  if sy.running then sy
  else { sy with running := true, timeout := some (now + sy.interval * 30) }

/-- The event loop turns at time `now`: a pending force-sync timer that is due
runs its callback `() => { this.forceSync = true }`. -/
def tick (sy : Synchronizer) (now : Nat) : Synchronizer :=
  match sy.timeout with
  | none => sy
  | some due => if due ≤ now then { sy with forceSync := true, timeout := none } else sy

/-- `stop ()`: nothing when not running, else clear `running`. -/
def stop (sy : Synchronizer) : Synchronizer :=
  if !sy.running then sy else { sy with running := false }

/-- The `while (this.running)` test of `start` fails and the loop is left:
`this.running = false; clearTimeout(timeout)`. -/
def loopExit (sy : Synchronizer) : Synchronizer :=
  if sy.running then sy else { sy with running := false, timeout := none }

/-- What happens to a synchronizer between two passes of its loop. -/
inductive Event where
  | start (now : Nat)
  | tick (now : Nat)
  | stop
  | loopExit
deriving DecidableEq, Repr

/-- Handle one event. -/
def handle (sy : Synchronizer) : Event → Synchronizer
  | .start now => sy.start now
  | .tick now => sy.tick now
  | .stop => sy.stop
  | .loopExit => sy.loopExit

/-- Handle a sequence of events. -/
def runEvents (sy : Synchronizer) (events : List Event) : Synchronizer :=
  events.foldl handle sy

end Synchronizer

/-! ## `syncWithPeer`, `sync` and one pass of the loop -/

/-- A JavaScript `Error` object. -/
structure Error where
  message : String
deriving DecidableEq, Repr

/-- The `TypeError` raised when a property of `undefined` is read. -/
def typeError : Error := { message := "TypeError: Cannot read property of undefined" }

/-- The `ReferenceError` raised when a name that is not bound is read. -/
def referenceError (name : String) : Error :=
  { message := "ReferenceError: " ++ name ++ " is not defined" }

/-- A block header, as far as the synchronizer reads it. -/
structure Header where
  number : Nat
deriving DecidableEq, Repr

/-- The options `first` and `count` handed to `new BlockFetcher`. -/
structure FetchRange where
  first : Int
  count : Int
deriving DecidableEq, Repr

/-- What a run of `BlockFetcher.fetch` leaves: the chain after it, the `error`
events the fetcher emitted meanwhile, and whether the promise resolved. -/
structure FetchOutcome where
  chain : Chain
  errors : List Error
  result : Except Error Unit

/-- The collaborators of `syncWithPeer` that are not part of this code: the
answer of a peer to `eth.getBlockHeaders({ block: bestHash, max: 1 })` and what
a `BlockFetcher` does when one is created and run. -/
structure SyncEnv where
  getBlockHeaders : Peer → Except Error (List Header)
  fetch : FetchRange → Chain → FetchOutcome

/-- The names `syncWithPeer` reads without `sync.js` giving them a value:
whether the module scope binds `BN` and `BlockFetcher`, and whether
`this.logger` is set. -/
structure SyncScope where
  BN : Bool
  BlockFetcher : Bool
  logger : Bool
deriving DecidableEq, Repr

/-- The scope of `lib/sync/sync.js` as it is: the only `require` of the module
is `events`, so `BN` and `BlockFetcher` are not bound, and neither the
constructor nor any method sets `this.logger`. -/
def syncJs : SyncScope := { BN := false, BlockFetcher := false, logger := false }

/-- Events a synchronizer emits on itself. -/
inductive SyncEvent where
  | synchronized
  | error (error : Error)
deriving DecidableEq, Repr

/-- What a call of `syncWithPeer` leaves: the value the promise resolves to or
the error it rejects with, the chain, the `BlockFetcher` it created if any, and
the events emitted on the synchronizer. -/
structure SyncOutcome where
  value : Except Error Bool
  chain : Chain
  fetcher : Option FetchRange
  emitted : List SyncEvent

namespace Synchronizer

/-- `latest (peer)`: the first header of the peer's answer; `none` is the
`undefined` read from an empty array. -/
def latest (env : SyncEnv) (peer : Peer) : Except Error (Option Header) :=
  match peer.eth with
  | none => .error typeError
  | some _ =>
    match env.getBlockHeaders peer with
    | .error e => .error e
    | .ok headers => .ok headers.head?

/-- `syncWithPeer (peer)`; `none` is an `undefined` peer.  Line by line:
`new BN(latest.number)` reads `BN` before its argument, then `latest.number`;
the stale test returns false; `this.logger.debug` reads `this.logger`;
`new BlockFetcher` reads `BlockFetcher`; the `error` events of the fetcher are
emitted again on the synchronizer and the value is true once `fetch ()` has
resolved. -/
def syncWithPeer (scope : SyncScope) (env : SyncEnv) (chain : Chain) (peer : Option Peer) :
    SyncOutcome :=
  match peer with
  | none => { value := .ok false, chain := chain, fetcher := none, emitted := [] }
  | some p =>
    match latest env p with
    | .error e => { value := .error e, chain := chain, fetcher := none, emitted := [] }
    | .ok latest =>
      if !scope.BN then
        { value := .error (referenceError "BN"), chain := chain, fetcher := none,
          emitted := [] }
      else
        match latest with
        | none =>
          { value := .error typeError, chain := chain, fetcher := none, emitted := [] }
        | some latest =>
          let height : Int := latest.number
          let first : Int := (chain.height : Int) + 1
          let count : Int := height - first + 1
          if count ≤ 0 then
            { value := .ok false, chain := chain, fetcher := none, emitted := [] }
          else if !scope.logger then
            { value := .error typeError, chain := chain, fetcher := none, emitted := [] }
          else if !scope.BlockFetcher then
            { value := .error (referenceError "BlockFetcher"), chain := chain,
              fetcher := none, emitted := [] }
          else
            let range : FetchRange := { first := first, count := count }
            let out := env.fetch range chain
            { value := out.result.map (fun _ => true),
              chain := out.chain,
              fetcher := some range,
              emitted := out.errors.map SyncEvent.error }

/-- `sync ()`. -/
def sync (sy : Synchronizer) (scope : SyncScope) (env : SyncEnv) (pool : PeerPool)
    (chain : Chain) : SyncOutcome :=
  syncWithPeer scope env chain (sy.best pool chain)

end Synchronizer

/-! ## `RlpxServer.error` (`lib/rlpxserver.js`) -/

/-- The literals joined with `|` into the regular expression `ignoredErrors`. -/
def ignoredErrors : List String :=
  ["EPIPE",
   "ECONNRESET",
   "ETIMEDOUT",
   "NetworkId mismatch",
   "Timeout error: ping",
   "Genesis block mismatch",
   "Handshake timed out",
   "Invalid address buffer",
   "Invalid MAC",
   "Invalid timestamp buffer",
   "Hash verification failed"]

/-- `RegExp.prototype.test` for a flagless alternation of literals that hold no
regular-expression metacharacter: the search succeeds when, at some position of
the input, one of the alternatives matches the characters that follow. -/
def regExpTest (alternatives : List String) (input : String) : Bool :=
  input.data.tails.any (fun rest => alternatives.any (fun a => a.data.isPrefixOf rest))

/-- What `RlpxServer.error` emits: `error` on a peer object or on the server. -/
inductive ServerEffect where
  | peerError (peer : Peer) (error : Error)
  | serverError (error : Error)
deriving DecidableEq, Repr

/-- `error (error, peer)` of `RlpxServer`; `peer = none` is an omitted or
`undefined` peer. -/
def RlpxServer.error (error : Error) (peer : Option Peer) : List ServerEffect :=
  if regExpTest ignoredErrors error.message then []
  else
    match peer with
    | some p => [ServerEffect.peerError p error]
    | none => [ServerEffect.serverError error]

/-! ## Protocol binding of a peer (`lib/rlpxpeer.js`) -/

/-- A negotiated sub-protocol session of the transport (`rlpxProtocol`), as far
as the peer reads it: the name of its class, `rlpxProtocol.constructor.name`. -/
structure RlpxProtocol where
  constructorName : String
deriving DecidableEq, Repr

/-- `String.prototype.toLowerCase` on the letters `A` to `Z`, the letters class
names are written in. -/
def toLowerCase (s : String) : String := String.mk (s.data.map Char.toLower)

/-- The `bind` method of the configured protocols, which is not part of this
code: called with the protocol, the peer and the session wrapped in an
`RlpxSender`, it resolves to a bound handle or rejects. -/
abbrev Bind := Protocol → Peer → RlpxProtocol → Except Error BoundProtocol

namespace Peer

/-- `Map.prototype.set` on `this.bound`: an existing key keeps its place. -/
def boundSet (m : List (String × BoundProtocol)) (k : String) (v : BoundProtocol) :
    List (String × BoundProtocol) :=
  if m.any (fun e => e.1 == k) then m.map (fun e => if e.1 == k then (k, v) else e)
  else m ++ [(k, v)]

/-- `bindProtocol (protocol, sender)`: on success the handle is stored under
its own name. -/
def bindProtocol (bind : Bind) (peer : Peer) (protocol : Protocol) (sender : RlpxProtocol) :
    Except Error Peer :=
  match bind protocol peer sender with
  | .error e => .error e
  | .ok bound => .ok { peer with bound := boundSet peer.bound bound.name bound }

/-- The callbacks that `bindProtocols` maps over `rlpxPeer.getProtocols()`, run
to completion in the order of the sessions: a session whose lower-cased class
name is that of a configured protocol is bound to the first such protocol, any
other session is skipped.  A rejection does not stop the other callbacks; the
first one is what `Promise.all` rejects with. -/
def bindAll (bind : Bind) : Peer → List RlpxProtocol → Peer × Option Error
  | peer, [] => (peer, none)
  | peer, rlpxProtocol :: rest =>
    let name := toLowerCase rlpxProtocol.constructorName
    match peer.protocols.find? (fun p => p.name == name) with
    | none => bindAll bind peer rest
    | some protocol =>
      match bindProtocol bind peer protocol rlpxProtocol with
      | .error e => ((bindAll bind peer rest).1, some e)
      | .ok peer2 => bindAll bind peer2 rest

/-- `bindProtocols (rlpxPeer)`: `connected` is set once `Promise.all` has
resolved; the error is the one the returned promise rejects with. -/
def bindProtocols (bind : Bind) (peer : Peer) (sessions : List RlpxProtocol) :
    Peer × Option Error :=
  match bindAll bind peer sessions with
  | (peer2, none) => ({ peer2 with connected := true }, none)
  | (peer2, some e) => (peer2, some e)

/-- `understands (protocolName)`. -/
def understands (peer : Peer) (protocolName : String) : Bool :=
  (peer.bound.find? (fun e => e.1 == protocolName)).isSome

/-- `accept (rlpxPeer, server)`: nothing when already connected, else bind the
protocols and, when that succeeded, record the owning server. -/
def accept (bind : Bind) (peer : Peer) (sessions : List RlpxProtocol) (server : Nat) :
    Peer × Option Error :=
  if peer.connected then (peer, none)
  else
    match bindProtocols bind peer sessions with
    | (peer2, none) => ({ peer2 with server := some server }, none)
    | (peer2, some e) => (peer2, some e)

end Peer

/-- A `bind` that always resolves, to a handle carrying the protocol's name. -/
def sampleBind : Bind := fun protocol _ _ => .ok { name := protocol.name }

/-! ## Peer tracking and ban of the server (`lib/rlpxserver.js`) -/

/-- The `RlpxServer` object: `started`, the configured `protocols` and the
`Map` `peers` from identity to live peer. -/
structure RlpxServer where
  ref : Nat := 0
  started : Bool := false
  protocols : List Protocol := []
  peers : List (Option String × Peer) := []
deriving DecidableEq, Repr

/-- A call the server makes on the discovery layer `this.dpt`. -/
inductive DptCall where
  | banPeer (peerId : Option String) (maxAge : Nat)
deriving DecidableEq, Repr

/-- The `connected` and `disconnected` events a server emits. -/
inductive ServerSignal where
  | connected (peer : Peer)
  | disconnected (peer : Peer)
deriving DecidableEq, Repr

namespace RlpxServer

/-- `Map.prototype.get` on `this.peers`. -/
def get (sv : RlpxServer) (k : Option String) : Option Peer :=
  (sv.peers.find? (fun e => e.1 == k)).map Prod.snd

/-- `ban (peerId, maxAge = 60000)`; `maxAge = none` is an omitted or `undefined`
argument.  Nothing before the server has started. -/
def ban (sv : RlpxServer) (peerId : Option String) (maxAge : Option Nat) :
    RlpxServer × List DptCall :=
  if !sv.started then (sv, [])
  else (sv, [DptCall.banPeer peerId (maxAge.getD 60000)])

/-- The handler of the transport's `peer:added`: construct the peer from the
identity of the connection, `accept` it, and on success track it and emit
`connected`; a rejection goes to `this.error (error)`. -/
def peerAdded (bind : Bind) (sv : RlpxServer) (ref : Nat) (id : String)
    (sessions : List RlpxProtocol) : RlpxServer × List ServerSignal × List ServerEffect :=
  let peer : Peer := { Peer.new ref (some id) none with protocols := sv.protocols }
  match Peer.accept bind peer sessions sv.ref with
  | (peer2, none) =>
    ({ sv with peers :=
        if (sv.get peer2.id).isSome then
          sv.peers.map (fun e => if e.1 == peer2.id then (peer2.id, peer2) else e)
        else sv.peers ++ [(peer2.id, peer2)] },
      [ServerSignal.connected peer2], [])
  | (_, some e) => (sv, [], RlpxServer.error e none)

/-- The handler of the transport's `peer:removed` for the connection of
identity `id`: a tracked peer is deleted and `disconnected` is emitted. -/
def peerRemoved (sv : RlpxServer) (id : String) : RlpxServer × List ServerSignal :=
  match sv.get (some id) with
  | none => (sv, [])
  | some peer =>
    ({ sv with peers := sv.peers.filter (fun e => !(e.1 == peer.id)) },
      [ServerSignal.disconnected peer])

end RlpxServer

/-! ## One pass of the loop of `start` -/

/-- What one pass of the loop of `start` leaves: the synchronizer, the calls of
`emit` in order, the error thrown out of the loop if any (the promise of
`start ()` then rejects with it), and whether the loop goes into another pass. -/
structure PassOutcome where
  sy : Synchronizer
  events : List SyncEvent
  thrown : Option Error
  continues : Bool
deriving DecidableEq, Repr

/-- One pass through the body of the `while` loop of `start` and the test that
follows it, given the outcome of `sync ()` and the number of `error` listeners
attached to the synchronizer.  `stopDuringSync` tells that a `stop ()` ran to
its end while `sync ()` was awaited, `stopDuringSleep` that one did while the
pass slept.  In the `try` a true value emits "synchronized"; in the `catch` the
error is emitted when `running` is set, and with no listener that `emit`
throws the error out of the loop.  Otherwise the pass sleeps and the test
`while (this.running)` decides; when it fails the two statements behind the
loop run. -/
def Synchronizer.pass (sy : Synchronizer) (out : SyncOutcome) (listeners : Nat)
    (stopDuringSync stopDuringSleep : Bool) : PassOutcome :=
  let caught := if stopDuringSync then sy.stop else sy
  let body : List SyncEvent × Option Error :=
    match out.value with
    | .ok true => (out.emitted ++ [SyncEvent.synchronized], none)
    | .ok false => (out.emitted, none)
    | .error e =>
      if caught.running then
        (out.emitted ++ [SyncEvent.error e], if listeners = 0 then some e else none)
      else (out.emitted, none)
  match body.2 with
  | some e => { sy := caught, events := body.1, thrown := some e, continues := false }
  | none =>
    let slept := if stopDuringSleep then caught.stop else caught
    { sy := slept.loopExit, events := body.1, thrown := none, continues := slept.running }

/-! ## `EthereumService` (`lib/service.js`) and the opening of the pool -/

/-- The options object handed to `new PeerPool`; `none` is an absent key.
`server` is a key the constructor does not read. -/
structure PoolOptions where
  servers : Option (List Nat) := none
  maxPeers : Option Nat := none
  server : Option Nat := none
deriving DecidableEq, Repr

/-- The `PeerPool` constructor: `{...defaultOptions, ...options}` with the
defaults `servers: []` and `maxPeers: 25`, then `this.servers`,
`this.maxPeers`, an empty `Map` and `opened = false`. -/
def PeerPool.fromOptions (options : PoolOptions) : PeerPool :=
  PeerPool.new (options.servers.getD []) (options.maxPeers.getD 25)

/-- `open ()` of the pool: nothing when already opened, else install the
`connected` and `disconnected` handlers on every server of `this.servers`. -/
def PeerPool.open (s : PeerPool) : PeerPool :=
  if s.opened then s
  else { s with listening := s.listening ++ s.servers, opened := true }

/-- The server `server` emits `connected` with `peer`: every handler the pool
has installed on that server calls `this.connected (peer)`. -/
def PeerPool.serverConnected (s : PeerPool) (server : Nat) (peer : Peer) :
    PeerPool × List Effect :=
  PeerPool.runHandlers (fun t => t.connected peer) (s.listening.count server) s

/-- The server `server` emits `disconnected` with `peer`: every handler the
pool has installed on that server calls `this.disconnected (peer)`. -/
def PeerPool.serverDisconnected (s : PeerPool) (server : Nat) (peer : Peer) :
    PeerPool × List Effect :=
  PeerPool.runHandlers (fun t => t.disconnected peer) (s.listening.count server) s

/-- The options object handed to `new EthereumService`; `none` is an absent
key.  `servers` is a key the constructor does not read. -/
structure ServiceOptions where
  server : Option Nat := none
  servers : Option (List Nat) := none
  chain : Option Chain := none
  minPeers : Option Nat := none
  maxPeers : Option Nat := none
  timeout : Option Nat := none
  interval : Option Nat := none
deriving DecidableEq, Repr

/-- The `EthereumService` object. -/
structure EthereumService where
  opened : Bool
  running : Bool
  server : Nat
  pool : PeerPool
  chain : Chain
  minPeers : Nat
  interval : Nat
  timeout : Nat
  synchronizer : Option Synchronizer
deriving DecidableEq, Repr

/-- The `EthereumService` constructor: the options are merged over the defaults
`minPeers: 3`, `maxPeers: 25`, `timeout: 5000`, `interval: 1000`; without a
server it throws, else it builds the pool with the keys `server` and `maxPeers`
and takes `options.chain` or a new chain. -/
def EthereumService.new (options : ServiceOptions) : Except Error EthereumService :=
  match options.server with
  | none => .error { message := "Server is required" }
  | some server =>
    .ok { opened := false,
          running := false,
          server := server,
          pool := PeerPool.fromOptions
            { server := some server, maxPeers := some (options.maxPeers.getD 25) },
          chain := options.chain.getD {},
          minPeers := options.minPeers.getD 3,
          interval := options.interval.getD 1000,
          timeout := options.timeout.getD 5000,
          synchronizer := none }

/-! ## Sample values for the concrete checks -/

/-- A sync-capable peer advertising total difficulty 5. -/
def samplePeerA : Peer :=
  { ref := 1, id := some "a", server := some 7, eth := some { status := { td := 5 } } }

/-- A peer with no bound `eth` protocol and no owning server. -/
def samplePeerB : Peer := { ref := 2, id := some "b" }

/-- A sync-capable peer advertising total difficulty 9. -/
def samplePeerC : Peer :=
  { ref := 3, id := some "c", server := some 7, eth := some { status := { td := 9 } } }

/-- A second sync-capable peer advertising total difficulty 9, busy. -/
def samplePeerD : Peer :=
  { ref := 4, id := some "d", server := some 7, idle := false,
    eth := some { status := { td := 9 } } }

/-- The pool holding the four sample peers in the order A, B, C, D, with the
handlers of `connected` installed once on A, C and D. -/
def samplePool : PeerPool :=
  { servers := [7], maxPeers := 25,
    pool := [(some "a", samplePeerA), (some "b", samplePeerB), (some "c", samplePeerC),
      (some "d", samplePeerD)],
    opened := true, wired := [1, 3, 4] }

/-- Collaborators for the scenarios of the integration test: every peer answers
with a single header of number `peerHeight`, and a fetch imports the whole
range it is handed. -/
def sampleEnv (peerHeight : Nat) : SyncEnv :=
  { getBlockHeaders := fun _ => .ok [{ number := peerHeight }],
    fetch := fun range chain =>
      { chain := { chain with height := (range.first + range.count - 1).toNat },
        errors := [], result := .ok () } }

/-! # Theorems -/
/-! ## Registry lemmas -/

theorem PeerPool.maxPeers_set (s : PeerPool) (k : Option String) (v : Peer) :
    (s.set k v).maxPeers = s.maxPeers := by
  unfold PeerPool.set; split <;> rfl

theorem PeerPool.set_of_absent (s : PeerPool) (k : Option String) (v : Peer)
    (h : (s.get k).isSome = false) : s.set k v = { s with pool := s.pool ++ [(k, v)] } := by
  unfold PeerPool.set; simp [h]

theorem PeerPool.add_some_eq (s : PeerPool) (p : Peer) :
    s.add (some p) =
      if truthyId p.id = true ∧ (s.get p.id).isSome = false then
        ({ s with pool := s.pool ++ [(p.id, p)] }, [Effect.added p])
      else (s, []) := by
  unfold PeerPool.add
  by_cases h1 : truthyId p.id = true <;> by_cases h2 : (s.get p.id).isSome = true
  · simp [h1, h2]
  · have h2f : (s.get p.id).isSome = false := by simpa using h2
    simp [h1, h2f, PeerPool.set_of_absent]
  · simp [h1, h2]
  · have h2f : (s.get p.id).isSome = false := by simpa using h2
    simp [h1, h2f]

theorem PeerPool.remove_some_eq (s : PeerPool) (p : Peer) :
    s.remove (some p) =
      if truthyId p.id = true ∧ (s.get p.id).isSome = true then
        ({ s with pool := s.pool.filter (fun e => !(e.1 == p.id)) }, [Effect.removed p])
      else if truthyId p.id = true then
        ({ s with pool := s.pool.filter (fun e => !(e.1 == p.id)) }, [])
      else (s, []) := by
  unfold PeerPool.remove PeerPool.delete
  by_cases h1 : truthyId p.id = true <;> by_cases h2 : (s.get p.id).isSome = true <;>
    simp [h1, h2]

theorem PeerPool.get_isSome_iff (s : PeerPool) (k : Option String) :
    (s.get k).isSome = true ↔ ∃ e ∈ s.pool, e.1 = k := by
  unfold PeerPool.get
  simp [List.find?_isSome]

theorem PeerPool.filter_of_absent (s : PeerPool) (k : Option String) (h : (s.get k).isSome = false) :
    s.pool.filter (fun e => !(e.1 == k)) = s.pool := by
  rw [List.filter_eq_self]
  intro e he
  have : ¬ ∃ e ∈ s.pool, e.1 = k := by
    rw [← PeerPool.get_isSome_iff]; simp [h]
  simp only [Bool.not_eq_true', beq_eq_false_iff_ne]
  intro hk
  exact this ⟨e, he, hk⟩


theorem PeerPool.size_eq (s : PeerPool) : s.size = s.pool.length := by
  simp [PeerPool.size, PeerPool.peers]

/-! ## What one call does to the bound, the capacity and the other entries -/

theorem PeerPool.add_maxPeers (s : PeerPool) (p : Option Peer) :
    (s.add p).1.maxPeers = s.maxPeers := by
  cases p with
  | none => rfl
  | some p => rw [PeerPool.add_some_eq]; split <;> rfl

theorem PeerPool.add_size_le (s : PeerPool) (p : Option Peer) :
    (s.add p).1.size ≤ s.size + 1 := by
  cases p with
  | none => simp [PeerPool.add]
  | some p =>
    rw [PeerPool.add_some_eq]
    split <;> simp [PeerPool.size_eq]

theorem PeerPool.add_keeps (s : PeerPool) (p : Option Peer) (e : Option String × Peer)
    (he : e ∈ s.pool) : e ∈ (s.add p).1.pool := by
  cases p with
  | none => simpa [PeerPool.add] using he
  | some p =>
    rw [PeerPool.add_some_eq]
    split
    · simp [he]
    · exact he

theorem PeerPool.remove_maxPeers (s : PeerPool) (p : Option Peer) :
    (s.remove p).1.maxPeers = s.maxPeers := by
  cases p with
  | none => rfl
  | some p => rw [PeerPool.remove_some_eq]; split_ifs <;> rfl

theorem PeerPool.remove_size_le (s : PeerPool) (p : Option Peer) :
    (s.remove p).1.size ≤ s.size := by
  cases p with
  | none => simp [PeerPool.remove]
  | some p =>
    rw [PeerPool.remove_some_eq]
    split_ifs <;> simp [PeerPool.size_eq, List.length_filter_le]

theorem PeerPool.remove_keeps (s : PeerPool) (p : Peer) (e : Option String × Peer)
    (he : e ∈ s.pool) (hne : e.1 ≠ p.id) : e ∈ (s.remove (some p)).1.pool := by
  rw [PeerPool.remove_some_eq]
  split_ifs <;> simp [he, hne]

theorem PeerPool.ban_maxPeers (s : PeerPool) (p : Peer) (maxAge : Option Nat) :
    (s.ban p maxAge).1.maxPeers = s.maxPeers := by
  unfold PeerPool.ban
  cases p.server with
  | none => rfl
  | some srv => exact PeerPool.remove_maxPeers s (some p)

theorem PeerPool.ban_size_le (s : PeerPool) (p : Peer) (maxAge : Option Nat) :
    (s.ban p maxAge).1.size ≤ s.size := by
  unfold PeerPool.ban
  cases p.server with
  | none => exact le_refl _
  | some srv => exact PeerPool.remove_size_le s (some p)

theorem PeerPool.ban_keeps (s : PeerPool) (p : Peer) (maxAge : Option Nat)
    (e : Option String × Peer) (he : e ∈ s.pool) (hne : e.1 ≠ p.id) :
    e ∈ (s.ban p maxAge).1.pool := by
  unfold PeerPool.ban
  cases p.server with
  | none => exact he
  | some srv => exact PeerPool.remove_keeps s p e he hne

theorem PeerPool.connected_maxPeers (s : PeerPool) (p : Peer) :
    (s.connected p).1.maxPeers = s.maxPeers := by
  unfold PeerPool.connected
  split
  · rfl
  · rw [PeerPool.add_maxPeers]

theorem PeerPool.connected_size_le (s : PeerPool) (p : Peer) (h : s.size ≤ s.maxPeers) :
    (s.connected p).1.size ≤ s.maxPeers := by
  unfold PeerPool.connected
  split
  · exact h
  · rename_i hlt
    have h1 := PeerPool.add_size_le { s with wired := s.wired ++ [p.ref] } (some p)
    have h2 : PeerPool.size { s with wired := s.wired ++ [p.ref] } = s.size := by
      simp [PeerPool.size_eq]
    omega

theorem PeerPool.connected_keeps (s : PeerPool) (p : Peer) (e : Option String × Peer)
    (he : e ∈ s.pool) : e ∈ (s.connected p).1.pool := by
  unfold PeerPool.connected
  split
  · exact he
  · exact PeerPool.add_keeps _ _ e he

theorem PeerPool.runHandlers_inv (P : PeerPool → Prop) (h : PeerPool → PeerPool × List Effect)
    (hP : ∀ t, P t → P (h t).1) (n : Nat) (s : PeerPool) (hs : P s) :
    P (PeerPool.runHandlers h n s).1 := by
  induction n generalizing s with
  | zero => exact hs
  | succ n ih => exact ih (h s).1 (hP s hs)

theorem PeerPool.errorHandler_maxPeers (s : PeerPool) (p : Peer) :
    (s.errorHandler p).1.maxPeers = s.maxPeers := by
  unfold PeerPool.errorHandler
  split
  · exact PeerPool.ban_maxPeers s p none
  · rfl

theorem PeerPool.errorHandler_size_le (s : PeerPool) (p : Peer) :
    (s.errorHandler p).1.size ≤ s.size := by
  unfold PeerPool.errorHandler
  split
  · exact PeerPool.ban_size_le s p none
  · exact le_refl _

theorem PeerPool.errorHandler_keeps (s : PeerPool) (p : Peer)
    (e : Option String × Peer) (he : e ∈ s.pool) (hne : e.1 ≠ p.id) :
    e ∈ (s.errorHandler p).1.pool := by
  unfold PeerPool.errorHandler
  split
  · exact PeerPool.ban_keeps s p none e he hne
  · exact he

theorem PeerPool.messageHandler_fst (s : PeerPool) (p : Peer) (m pr : String) :
    (s.messageHandler p m pr).1 = s := by
  unfold PeerPool.messageHandler
  split <;> rfl

theorem PeerPool.peerMessage_fst (s : PeerPool) (p : Peer) (m pr : String) :
    (s.peerMessage p m pr).1 = s := by
  unfold PeerPool.peerMessage
  exact PeerPool.runHandlers_inv (fun t => t = s) _
    (fun t ht => (PeerPool.messageHandler_fst t p m pr).trans ht) _ s rfl

theorem PeerPool.peerError_maxPeers (s : PeerPool) (p : Peer) :
    (s.peerError p).1.maxPeers = s.maxPeers := by
  unfold PeerPool.peerError
  exact PeerPool.runHandlers_inv (fun t => t.maxPeers = s.maxPeers) _
    (fun t ht => (PeerPool.errorHandler_maxPeers t p).trans ht) _ s rfl

theorem PeerPool.peerError_size_le (s : PeerPool) (p : Peer) :
    (s.peerError p).1.size ≤ s.size := by
  unfold PeerPool.peerError
  exact PeerPool.runHandlers_inv (fun t => t.size ≤ s.size) _
    (fun t ht => le_trans (PeerPool.errorHandler_size_le t p) ht) _ s (le_refl _)

theorem PeerPool.peerError_keeps (s : PeerPool) (p : Peer)
    (e : Option String × Peer) (he : e ∈ s.pool) (hne : e.1 ≠ p.id) :
    e ∈ (s.peerError p).1.pool := by
  unfold PeerPool.peerError
  exact PeerPool.runHandlers_inv (fun t => e ∈ t.pool) _
    (fun t ht => PeerPool.errorHandler_keeps t p e ht hne) _ s he

theorem PeerPool.step_maxPeers (s : PeerPool) (op : PeerPool.Op) :
    (s.step op).1.maxPeers = s.maxPeers := by
  cases op with
  | add p => exact PeerPool.add_maxPeers s p
  | remove p => exact PeerPool.remove_maxPeers s p
  | connected p => exact PeerPool.connected_maxPeers s p
  | disconnected p => exact PeerPool.remove_maxPeers s (some p)
  | ban p a => exact PeerPool.ban_maxPeers s p a
  | peerError p => exact PeerPool.peerError_maxPeers s p
  | peerMessage p m pr => simp [PeerPool.step, PeerPool.peerMessage_fst]

/-- Each call keeps every entry whose identity is not that of the peer it is given. -/
theorem PeerPool.step_keeps (s : PeerPool) (op : PeerPool.Op) (e : Option String × Peer)
    (he : e ∈ s.pool) (hne : ∀ p, op.peer = some p → e.1 ≠ p.id) :
    e ∈ (s.step op).1.pool := by
  cases op with
  | add p => exact PeerPool.add_keeps s p e he
  | remove p =>
    cases p with
    | none => simpa [PeerPool.step, PeerPool.remove] using he
    | some p => exact PeerPool.remove_keeps s p e he (hne p rfl)
  | connected p => exact PeerPool.connected_keeps s p e he
  | disconnected p => exact PeerPool.remove_keeps s p e he (hne p rfl)
  | ban p a => exact PeerPool.ban_keeps s p a e he (hne p rfl)
  | peerError p => exact PeerPool.peerError_keeps s p e he (hne p rfl)
  | peerMessage p m pr => simpa [PeerPool.step, PeerPool.peerMessage_fst] using he

/-- A call that is not a bare `add` keeps the pool within `maxPeers`; a bare
`add` does when it is issued below capacity. -/
theorem PeerPool.step_size_le (s : PeerPool) (op : PeerPool.Op) (h : s.size ≤ s.maxPeers)
    (hadd : ∀ p, op = PeerPool.Op.add p → s.size < s.maxPeers) :
    (s.step op).1.size ≤ s.maxPeers := by
  cases op with
  | add p =>
    have h1 := PeerPool.add_size_le s p
    have h2 := hadd p rfl
    show (s.add p).1.size ≤ s.maxPeers
    omega
  | remove p => exact le_trans (PeerPool.remove_size_le s p) h
  | connected p => exact PeerPool.connected_size_le s p h
  | disconnected p => exact le_trans (PeerPool.remove_size_le s (some p)) h
  | ban p a => exact le_trans (PeerPool.ban_size_le s p a) h
  | peerError p => exact le_trans (PeerPool.peerError_size_le s p) h
  | peerMessage p m pr => simpa [PeerPool.step, PeerPool.peerMessage_fst] using h

theorem PeerPool.run_take_size_le (ops : List PeerPool.Op) :
    ∀ (s : PeerPool) (k : Nat), s.size ≤ s.maxPeers →
      PeerPool.addsBelowCapacity s ops = true →
      (PeerPool.run s (ops.take k)).1.size ≤ s.maxPeers := by
  induction ops with
  | nil => intro s k hs _; simpa [PeerPool.run] using hs
  | cons op rest ih =>
    intro s k hs hcap
    cases k with
    | zero => simpa [PeerPool.run] using hs
    | succ k =>
      have hadd : ∀ p, op = PeerPool.Op.add p → s.size < s.maxPeers := by
        intro p hp
        subst hp
        simp [PeerPool.addsBelowCapacity] at hcap
        exact hcap.1
      have hrest : PeerPool.addsBelowCapacity (s.step op).1 rest = true := by
        cases op <;> simp_all [PeerPool.addsBelowCapacity, PeerPool.step]
      have h1 := PeerPool.step_size_le s op hs hadd
      have h2 := PeerPool.step_maxPeers s op
      have h3 := ih (s.step op).1 k (by rw [h2]; exact h1) hrest
      rw [h2] at h3
      simpa [PeerPool.run] using h3


/-! ## C1: `add`, `remove` and the capacity -/

/-- C1 (as stated, refuted): `add` has no capacity test.  With `maxPeers = 1`, after
`add(a)` the pool holds `maxPeers` peers; `add(b)` then inserts `b`, emits
"added" and leaves the pool with two peers. -/
theorem PeerPool.add_exceeds_maxPeers :
    (PeerPool.run (PeerPool.new [] 1) [PeerPool.Op.add (some { ref := 1, id := some "a" })]).1.size
        = 1 ∧
      (PeerPool.add
          (PeerPool.run (PeerPool.new [] 1)
            [PeerPool.Op.add (some { ref := 1, id := some "a" })]).1
          (some { ref := 2, id := some "b" })).2
        = [Effect.added { ref := 2, id := some "b" }] ∧
      ¬ ((PeerPool.run (PeerPool.new [] 1)
            [PeerPool.Op.add (some { ref := 1, id := some "a" }),
             PeerPool.Op.add (some { ref := 2, id := some "b" })]).1.size
          ≤ (PeerPool.new [] 1).maxPeers) := by
  decide

/-- C1 (amended): for every `maxPeers` and every finite sequence of pool calls
applied to an initially empty pool in which each bare `add` is issued while the
pool holds fewer than `maxPeers` peers (the test `connected` makes before it
calls `add`), the pool size never exceeds `maxPeers` after any call.  `add`
itself has no capacity test: on any pool, full or not, `add(peer)` leaves the
pool unchanged and emits nothing when the identity is falsy or already present,
and otherwise appends the peer under its identity and emits exactly "added". -/
theorem PeerPool.add_remove_size_le_maxPeers (servers : List Nat) (maxPeers : Nat)
    (ops : List PeerPool.Op)
    (hcap : PeerPool.addsBelowCapacity (PeerPool.new servers maxPeers) ops = true) :
    (∀ k, (PeerPool.run (PeerPool.new servers maxPeers) (ops.take k)).1.size ≤ maxPeers) ∧
      (∀ (s : PeerPool) (p : Peer),
        (truthyId p.id = false ∨ s.contains p = true → s.add (some p) = (s, [])) ∧
        (truthyId p.id = true → s.contains p = false →
          s.add (some p) = ({ s with pool := s.pool ++ [(p.id, p)] }, [Effect.added p]))) := by
  refine ⟨fun k => ?_, fun s p => ⟨?_, ?_⟩⟩
  · exact PeerPool.run_take_size_le ops (PeerPool.new servers maxPeers) k
      (by simp [PeerPool.new, PeerPool.size_eq]) hcap
  · intro h
    rw [PeerPool.add_some_eq]
    rcases h with h | h
    · simp [h]
    · have : (s.get p.id).isSome = true := h
      simp [this]
  · intro h1 h2
    rw [PeerPool.add_some_eq]
    have : (s.get p.id).isSome = false := h2
    simp [h1, this]

/-- C1 (amended), at a concrete sequence: two adds and a remove under `maxPeers = 2`. -/
theorem PeerPool.add_remove_size_le_maxPeers_witness :
    PeerPool.addsBelowCapacity (PeerPool.new [] 2)
        [PeerPool.Op.add (some { ref := 1, id := some "a" }),
         PeerPool.Op.remove (some { ref := 1, id := some "a" }),
         PeerPool.Op.add (some { ref := 2, id := some "b" })] = true ∧
      (∀ k, (PeerPool.run (PeerPool.new [] 2)
        (List.take k [PeerPool.Op.add (some { ref := 1, id := some "a" }),
         PeerPool.Op.remove (some { ref := 1, id := some "a" }),
         PeerPool.Op.add (some { ref := 2, id := some "b" })])).1.size ≤ 2) :=
  ⟨by decide, (PeerPool.add_remove_size_le_maxPeers [] 2 _ (by decide)).1⟩

/-! ## C2: `connected`, `disconnected`, `ban` and peer errors -/

theorem PeerPool.run_take_succ (ops : List PeerPool.Op) :
    ∀ (s : PeerPool) (k : Nat) (hk : k < ops.length),
      (PeerPool.run s (ops.take (k + 1))).1
        = ((PeerPool.run s (ops.take k)).1.step (ops.get ⟨k, hk⟩)).1 := by
  induction ops with
  | nil => intro s k hk; exact absurd hk (by simp)
  | cons op rest ih =>
    intro s k hk
    cases k with
    | zero => simp [PeerPool.run]
    | succ k =>
      have hk2 : k < rest.length := by simpa using hk
      simpa [PeerPool.run] using ih (s.step op).1 k hk2

theorem PeerPool.addsBelowCapacity_of_no_add (ops : List PeerPool.Op)
    (h : ∀ op ∈ ops, ∀ p, op ≠ PeerPool.Op.add p) :
    ∀ s : PeerPool, PeerPool.addsBelowCapacity s ops = true := by
  induction ops with
  | nil => intro s; rfl
  | cons op rest ih =>
    intro s
    have hrest := ih (fun o ho p => h o (List.mem_cons_of_mem _ ho) p)
    have hop := h op (List.mem_cons_self _ _)
    cases op with
    | add p => exact absurd rfl (hop p)
    | remove p => simpa [PeerPool.addsBelowCapacity] using hrest _
    | connected p => simpa [PeerPool.addsBelowCapacity] using hrest _
    | disconnected p => simpa [PeerPool.addsBelowCapacity] using hrest _
    | ban p a => simpa [PeerPool.addsBelowCapacity] using hrest _
    | peerError p => simpa [PeerPool.addsBelowCapacity] using hrest _
    | peerMessage p m pr => simpa [PeerPool.addsBelowCapacity] using hrest _

/-- C2: for every `maxPeers` and every finite sequence of `connected`,
`disconnected` and `ban` calls and peer `error` events applied to an initially
empty pool, after every call the pool size is at most `maxPeers`, every entry
whose identity is not that of the peer the call was given is still in the
registry, and a `connected` call on a pool at capacity changes nothing and
emits nothing (admission is refused, nobody is evicted). -/
theorem PeerPool.connected_disconnected_ban_bounded (servers : List Nat) (maxPeers : Nat)
    (ops : List PeerPool.Op)
    (hops : ∀ op ∈ ops, op.lifecycle = true)
    (k : Nat) (hk : k < ops.length) :
    (PeerPool.run (PeerPool.new servers maxPeers) (ops.take (k + 1))).1.size ≤ maxPeers ∧
      (∀ e ∈ (PeerPool.run (PeerPool.new servers maxPeers) (ops.take k)).1.pool,
        (∀ p, (ops.get ⟨k, hk⟩).peer = some p → e.1 ≠ p.id) →
        e ∈ (PeerPool.run (PeerPool.new servers maxPeers) (ops.take (k + 1))).1.pool) ∧
      (∀ p, ops.get ⟨k, hk⟩ = PeerPool.Op.connected p →
        maxPeers ≤ (PeerPool.run (PeerPool.new servers maxPeers) (ops.take k)).1.size →
        (PeerPool.run (PeerPool.new servers maxPeers) (ops.take k)).1.step (ops.get ⟨k, hk⟩)
          = ((PeerPool.run (PeerPool.new servers maxPeers) (ops.take k)).1, [])) := by
  have hcap : PeerPool.addsBelowCapacity (PeerPool.new servers maxPeers) ops = true := by
    apply PeerPool.addsBelowCapacity_of_no_add
    intro op hop p hp
    have := hops op hop
    rw [hp] at this
    simp [PeerPool.Op.lifecycle] at this
  have h0 : (PeerPool.new servers maxPeers).size ≤ (PeerPool.new servers maxPeers).maxPeers := by
    simp [PeerPool.new, PeerPool.size_eq]
  refine ⟨PeerPool.run_take_size_le ops _ (k + 1) h0 hcap, ?_, ?_⟩
  · intro e he hne
    rw [PeerPool.run_take_succ ops _ k hk]
    exact PeerPool.step_keeps _ _ e he hne
  · intro p hp hfull
    have hm : ∀ (t : PeerPool) (l : List PeerPool.Op), (PeerPool.run t l).1.maxPeers = t.maxPeers := by
      intro t l
      induction l generalizing t with
      | nil => rfl
      | cons o l ih => simp [PeerPool.run, ih, PeerPool.step_maxPeers]
    have hmp := hm (PeerPool.new servers maxPeers) (ops.take k)
    rw [hp]
    simp only [PeerPool.step, PeerPool.connected]
    rw [if_pos]
    rw [hmp]
    exact hfull

/-- C2 at a concrete sequence under `maxPeers = 1`: the second `connected` is
refused while the first peer stays. -/
theorem PeerPool.connected_disconnected_ban_bounded_witness :
    (PeerPool.run (PeerPool.new [7] 1)
        (List.take 2 [PeerPool.Op.connected { ref := 1, id := some "a", server := some 7 },
          PeerPool.Op.connected { ref := 2, id := some "b", server := some 7 },
          PeerPool.Op.peerError { ref := 1, id := some "a", server := some 7 }])).1.size ≤ 1 :=
  (PeerPool.connected_disconnected_ban_bounded [7] 1
    [PeerPool.Op.connected { ref := 1, id := some "a", server := some 7 },
      PeerPool.Op.connected { ref := 2, id := some "b", server := some 7 },
      PeerPool.Op.peerError { ref := 1, id := some "a", server := some 7 }]
    (by decide) 1 (by decide)).1

/-! ## C3: best-peer selection -/

theorem Synchronizer.syncablePeers_length (pool : PeerPool) :
    (Synchronizer.syncablePeers pool).length
      = (pool.peers.filter (fun p => (Synchronizer.syncable p).isSome)).length := by
  unfold Synchronizer.syncablePeers
  induction pool.peers with
  | nil => rfl
  | cons p l ih =>
    cases h : Synchronizer.syncable p <;> simp [List.filterMap_cons, List.filter_cons, h, ih]

theorem Synchronizer.loop_inv (chain : Chain) (l : List Peer) :
    Synchronizer.LoopInv chain l
      ((l.filterMap (fun p => (Synchronizer.syncable p).map (fun e => (p, e)))).foldl
        (Synchronizer.bestStep chain) none) := by
  induction l using List.reverseRecOn with
  | nil => intro q hq; simp at hq
  | append_singleton l x ih =>
    rw [List.filterMap_append, List.foldl_append]
    generalize (l.filterMap (fun p => (Synchronizer.syncable p).map (fun e => (p, e)))).foldl
        (Synchronizer.bestStep chain) none = acc at ih
    cases hx : x.eth with
    | none =>
      have : [x].filterMap (fun p => (Synchronizer.syncable p).map (fun e => (p, e))) = [] := by
        simp [Synchronizer.syncable, hx]
      rw [this, List.foldl_nil]
      cases acc with
      | none =>
        intro q hq e he
        rcases List.mem_append.mp hq with h | h
        · exact ih q h e he
        · simp at h; subst h; rw [hx] at he; cases he
      | some b =>
        obtain ⟨h1, h2, pre, post, h3, h4, h5⟩ := ih
        refine ⟨h1, h2, pre, post ++ [x], by simp [h3], h4, ?_⟩
        intro q hq e he
        rcases List.mem_append.mp hq with h | h
        · exact h5 q h e he
        · simp at h; subst h; rw [hx] at he; cases he
    | some ex =>
      have : [x].filterMap (fun p => (Synchronizer.syncable p).map (fun e => (p, e))) = [(x, ex)] := by
        simp [Synchronizer.syncable, hx]
      rw [this, List.foldl_cons, List.foldl_nil]
      cases acc with
      | none =>
        by_cases hge : chain.td ≤ ex.status.td
        · have : Synchronizer.bestStep chain none (x, ex) = some (x, ex) := by
            simp [Synchronizer.bestStep, hge]
          rw [this]
          refine ⟨hx, hge, l, [], by simp, ?_, by simp⟩
          intro q hq e he
          exact lt_of_lt_of_le (ih q hq e he) hge
        · have : Synchronizer.bestStep chain none (x, ex) = none := by
            simp [Synchronizer.bestStep, hge]
          rw [this]
          intro q hq e he
          rcases List.mem_append.mp hq with h | h
          · exact ih q h e he
          · simp at h; subst h; rw [hx] at he; cases he; omega
      | some b =>
        obtain ⟨h1, h2, pre, post, h3, h4, h5⟩ := ih
        by_cases hlt : b.2.status.td < ex.status.td
        · have : Synchronizer.bestStep chain (some b) (x, ex) = some (x, ex) := by
            simp [Synchronizer.bestStep, hlt]
          rw [this]
          refine ⟨hx, by simp only; omega, l, [], by simp, ?_, by simp⟩
          intro q hq e he
          simp only
          rw [h3] at hq
          rcases List.mem_append.mp hq with h | h
          · have := h4 q h e he; omega
          · rcases List.mem_cons.mp h with h | h
            · subst h; rw [h1] at he; cases he; exact hlt
            · have := h5 q h e he; omega
        · have : Synchronizer.bestStep chain (some b) (x, ex) = some b := by
            simp [Synchronizer.bestStep, hlt]
          rw [this]
          refine ⟨h1, h2, pre, post ++ [x], by simp [h3], h4, ?_⟩
          intro q hq e he
          rcases List.mem_append.mp hq with h | h
          · exact h5 q h e he
          · simp at h; subst h; rw [hx] at he; cases he; omega

/-- C3: when at least `minPeers` peers are sync-capable (or `forceSync` is set),
`best` returns none if no sync-capable peer advertises a total difficulty at
least the local one, and otherwise returns the peer `a` at the first position of
the pool's iteration order whose total difficulty is the maximum over the
sync-capable peers: it is at least the local total difficulty, every
sync-capable peer before `a` is strictly lighter and none after it is heavier. -/
theorem Synchronizer.best_first_heaviest (sy : Synchronizer) (pool : PeerPool) (chain : Chain)
    (hmin : sy.minPeers ≤ (pool.peers.filter (fun p => (Synchronizer.syncable p).isSome)).length ∨
      sy.forceSync = true) :
    ((∀ q ∈ pool.peers, ∀ e, q.eth = some e → e.status.td < chain.td) →
        sy.best pool chain = none) ∧
      ((∃ q ∈ pool.peers, ∃ e, q.eth = some e ∧ chain.td ≤ e.status.td) →
        ∃ a ea pre post, sy.best pool chain = some a ∧ a.eth = some ea ∧
          chain.td ≤ ea.status.td ∧ pool.peers = pre ++ a :: post ∧
          (∀ q ∈ pre, ∀ e, q.eth = some e → e.status.td < ea.status.td) ∧
          (∀ q ∈ post, ∀ e, q.eth = some e → e.status.td ≤ ea.status.td)) := by
  have hgo : sy.best pool chain
      = ((Synchronizer.syncablePeers pool).foldl (Synchronizer.bestStep chain) none).map
          Prod.fst := by
    unfold Synchronizer.best
    rw [if_neg]
    rw [Synchronizer.syncablePeers_length]
    rcases hmin with h | h
    · simp; intro h2; omega
    · simp [h]
  have hinv := Synchronizer.loop_inv chain pool.peers
  rw [hgo]
  unfold Synchronizer.syncablePeers
  generalize (pool.peers.filterMap (fun p => (Synchronizer.syncable p).map (fun e => (p, e)))).foldl
      (Synchronizer.bestStep chain) none = acc at hinv
  constructor
  · intro hall
    cases acc with
    | none => rfl
    | some b =>
      obtain ⟨h1, h2, pre, post, h3, _, _⟩ := hinv
      have := hall b.1 (by rw [h3]; simp) b.2 h1
      omega
  · rintro ⟨q, hq, e, he, hge⟩
    cases acc with
    | none => have := hinv q hq e he; omega
    | some b =>
      obtain ⟨h1, h2, pre, post, h3, h4, h5⟩ := hinv
      exact ⟨b.1, b.2, pre, post, rfl, h1, h2, h3, h4, h5⟩

/-- C3 at a concrete pool: local total difficulty 6, peers advertising 5, none,
9 and 9, `minPeers = 1`; the first of the two heaviest peers is chosen. -/
theorem Synchronizer.best_first_heaviest_witness :
    Synchronizer.best { minPeers := 1 } samplePool { td := 6 } = some samplePeerC ∧
      ∃ a ea pre post, Synchronizer.best { minPeers := 1 } samplePool { td := 6 } = some a ∧
        a.eth = some ea ∧ (6 : Nat) ≤ ea.status.td ∧ samplePool.peers = pre ++ a :: post ∧
        (∀ q ∈ pre, ∀ e, q.eth = some e → e.status.td < ea.status.td) ∧
        (∀ q ∈ post, ∀ e, q.eth = some e → e.status.td ≤ ea.status.td) :=
  ⟨by decide,
   (Synchronizer.best_first_heaviest { minPeers := 1 } samplePool { td := 6 }
      (Or.inl (by decide))).2
      ⟨samplePeerC, by decide, { status := { td := 9 } }, rfl, by decide⟩⟩

/-! ## C4: the force-sync deadline -/

/-- C4 (as stated, refuted): `forceSync` is never reset.  A synchronizer with
`interval = 10` and `minPeers = 4` is started at time 0, its timer fires at 300,
it is stopped and started again at time 500.  The deadline of the running loop,
800, has not elapsed, only three peers are sync-capable, and `best` returns a
peer. -/
theorem Synchronizer.best_after_restart :
    (Synchronizer.runEvents (Synchronizer.new 4 10)
        [.start 0, .tick 300, .stop, .loopExit, .start 500]).running = true ∧
      (Synchronizer.runEvents (Synchronizer.new 4 10)
        [.start 0, .tick 300, .stop, .loopExit, .start 500]).timeout = some (500 + 10 * 30) ∧
      (samplePool.peers.filter (fun p => (Synchronizer.syncable p).isSome)).length < 4 ∧
      Synchronizer.best
        (Synchronizer.runEvents (Synchronizer.new 4 10)
          [.start 0, .tick 300, .stop, .loopExit, .start 500])
        samplePool { td := 6 } = some samplePeerC := by
  decide

theorem Synchronizer.best_eq_none_of_few (sy : Synchronizer) (pool : PeerPool) (chain : Chain)
    (hfew : (pool.peers.filter (fun p => (Synchronizer.syncable p).isSome)).length < sy.minPeers)
    (hforce : sy.forceSync = false) : sy.best pool chain = none := by
  unfold Synchronizer.best
  rw [if_pos]
  rw [Synchronizer.syncablePeers_length]
  simp [hfew, hforce]

theorem Synchronizer.best_eq_loop (sy : Synchronizer) (pool : PeerPool) (chain : Chain)
    (h : sy.minPeers ≤ (pool.peers.filter (fun p => (Synchronizer.syncable p).isSome)).length ∨
      sy.forceSync = true) :
    sy.best pool chain
      = ((Synchronizer.syncablePeers pool).foldl (Synchronizer.bestStep chain) none).map
          Prod.fst := by
  unfold Synchronizer.best
  rw [if_neg]
  rw [Synchronizer.syncablePeers_length]
  rcases h with h | h
  · simp; intro h2; omega
  · simp [h]

theorem Synchronizer.tick_forceSync (sy : Synchronizer) (now : Nat)
    (h : sy.forceSync = true) : (sy.tick now).forceSync = true := by
  unfold Synchronizer.tick
  split
  · exact h
  · split
    · rfl
    · exact h

theorem Synchronizer.handle_forceSync (sy : Synchronizer) (ev : Synchronizer.Event)
    (h : sy.forceSync = true) : (sy.handle ev).forceSync = true := by
  cases ev with
  | start now => simp only [Synchronizer.handle, Synchronizer.start]; split <;> exact h
  | tick now => exact Synchronizer.tick_forceSync sy now h
  | stop => simp only [Synchronizer.handle, Synchronizer.stop]; split <;> exact h
  | loopExit => simp only [Synchronizer.handle, Synchronizer.loopExit]; split <;> exact h

theorem Synchronizer.runEvents_forceSync (events : List Synchronizer.Event) :
    ∀ sy : Synchronizer, sy.forceSync = true → (sy.runEvents events).forceSync = true := by
  induction events with
  | nil => intro sy h; exact h
  | cons ev rest ih =>
    intro sy h
    exact ih (sy.handle ev) (Synchronizer.handle_forceSync sy ev h)

theorem Synchronizer.foldl_tick_early (due : Nat) (ticks : List Nat) (sy : Synchronizer)
    (htimer : sy.timeout = some due) (hearly : ∀ t ∈ ticks, t < due) :
    ticks.foldl Synchronizer.tick sy = sy := by
  induction ticks with
  | nil => rfl
  | cons t rest ih =>
    have ht : sy.tick t = sy := by
      have := hearly t (List.mem_cons_self _ _)
      unfold Synchronizer.tick
      rw [htimer]
      simp only
      rw [if_neg (by omega)]
    rw [List.foldl_cons, ht]
    exact ih (fun u hu => hearly u (List.mem_cons_of_mem _ hu))

theorem Synchronizer.foldl_tick_due (due : Nat) (ticks : List Nat) :
    ∀ sy : Synchronizer, sy.forceSync = true ∨ sy.timeout = some due →
      (∃ t ∈ ticks, due ≤ t) → (ticks.foldl Synchronizer.tick sy).forceSync = true := by
  induction ticks with
  | nil => intro sy _ h; obtain ⟨t, ht, _⟩ := h; simp at ht
  | cons t rest ih =>
    intro sy hsy hex
    have hmono : ∀ (l : List Nat) (s : Synchronizer), s.forceSync = true →
        (l.foldl Synchronizer.tick s).forceSync = true := by
      intro l
      induction l with
      | nil => intro s h; exact h
      | cons u l ihl => intro s h; exact ihl _ (Synchronizer.tick_forceSync s u h)
    rw [List.foldl_cons]
    rcases hsy with h | h
    · exact hmono rest _ (Synchronizer.tick_forceSync sy t h)
    · by_cases hdue : due ≤ t
      · apply hmono
        unfold Synchronizer.tick
        rw [h]
        simp only
        rw [if_pos hdue]
      · have ht : sy.tick t = sy := by
          unfold Synchronizer.tick
          rw [h]
          simp only
          rw [if_neg hdue]
        rw [ht]
        apply ih sy (Or.inr h)
        obtain ⟨u, hu, hle⟩ := hex
        rcases List.mem_cons.mp hu with hu | hu
        · subst hu; exact absurd hle hdue
        · exact ⟨u, hu, hle⟩

/-- C4 (amended): for every pool in which fewer than `minPeers` peers are
sync-capable, on a newly constructed synchronizer started at time `t0`, `best`
returns none, whatever the peers advertise, as long as the event loop has only
turned before `t0 + interval * 30`; once it has turned at or after that time the
timer has set `forceSync`, and with `forceSync` set `best` selects among the
sync-capable peers exactly as a synchronizer whose `minPeers` is satisfied
does.  `forceSync` is never cleared: it stays set through every later `stop`
and `start`, so the deadline of a later run of the loop does not hold
selection back. -/
theorem Synchronizer.best_force_sync_deadline (minPeers interval t0 : Nat) (pool : PeerPool)
    (chain : Chain)
    (hfew : (pool.peers.filter (fun p => (Synchronizer.syncable p).isSome)).length < minPeers) :
    (∀ ticks : List Nat, (∀ t ∈ ticks, t < t0 + interval * 30) →
        Synchronizer.best (ticks.foldl Synchronizer.tick ((Synchronizer.new minPeers interval).start t0))
          pool chain = none) ∧
      (∀ ticks : List Nat, (∃ t ∈ ticks, t0 + interval * 30 ≤ t) →
        (ticks.foldl Synchronizer.tick ((Synchronizer.new minPeers interval).start t0)).forceSync
          = true) ∧
      (∀ sy : Synchronizer, sy.forceSync = true → ∀ events : List Synchronizer.Event,
        (sy.runEvents events).forceSync = true ∧
        Synchronizer.best (sy.runEvents events) pool chain
          = Synchronizer.best (Synchronizer.new 0 interval) pool chain) := by
  have hstart : (Synchronizer.new minPeers interval).start t0
      = { minPeers := minPeers, interval := interval, running := true, forceSync := false,
          timeout := some (t0 + interval * 30) } := by
    simp [Synchronizer.new, Synchronizer.start]
  refine ⟨?_, ?_, ?_⟩
  · intro ticks hearly
    rw [Synchronizer.foldl_tick_early (t0 + interval * 30) ticks _ (by rw [hstart]) hearly]
    apply Synchronizer.best_eq_none_of_few
    · rw [hstart]; exact hfew
    · rw [hstart]
  · intro ticks hdue
    exact Synchronizer.foldl_tick_due (t0 + interval * 30) ticks _
      (Or.inr (by rw [hstart])) hdue
  · intro sy hforce events
    have h := Synchronizer.runEvents_forceSync events sy hforce
    refine ⟨h, ?_⟩
    rw [Synchronizer.best_eq_loop _ pool chain (Or.inr h),
      Synchronizer.best_eq_loop _ pool chain (Or.inl (by simp [Synchronizer.new]))]

/-- C4 (amended) at a concrete run: `minPeers = 4`, three sync-capable peers,
`interval = 10`, started at 0, the event loop turning at 100 and 299. -/
theorem Synchronizer.best_force_sync_deadline_witness :
    (samplePool.peers.filter (fun p => (Synchronizer.syncable p).isSome)).length < 4 ∧
      Synchronizer.best
        ([100, 299].foldl Synchronizer.tick ((Synchronizer.new 4 10).start 0))
        samplePool { td := 6 } = none :=
  ⟨by decide,
   (Synchronizer.best_force_sync_deadline 4 10 0 samplePool { td := 6 } (by decide)).1
      [100, 299] (by decide)⟩

/-! ## C5: `idle` -/

/-- C5: for every pool, predicate and draw `r = num / den` in `[0, 1)`,
`idle(predicate)` returns none exactly when no peer of the registry is idle and
satisfies the predicate; otherwise the index `floor (r * n)` lies within the `n`
qualifying peers and the result is a peer of the registry that is idle and
satisfies the predicate. -/
theorem PeerPool.idle_qualifies (s : PeerPool) (filterFn : Peer → Bool) (num den : Nat)
    (hr : num < den) :
    (s.idle filterFn num den = none ↔
        ∀ p ∈ s.peers, ¬ (p.idle = true ∧ filterFn p = true)) ∧
      (∀ p, s.idle filterFn num den = some p →
        p ∈ s.peers ∧ p.idle = true ∧ filterFn p = true) ∧
      (0 < (s.peers.filter (fun p => p.idle && filterFn p)).length →
        num * (s.peers.filter (fun p => p.idle && filterFn p)).length / den
          < (s.peers.filter (fun p => p.idle && filterFn p)).length) := by
  have hidx : 0 < (s.peers.filter (fun p => p.idle && filterFn p)).length →
      num * (s.peers.filter (fun p => p.idle && filterFn p)).length / den
        < (s.peers.filter (fun p => p.idle && filterFn p)).length := by
    intro hpos
    apply Nat.div_lt_of_lt_mul
    exact Nat.mul_lt_mul_of_pos_right hr hpos
  refine ⟨?_, ?_, hidx⟩
  · unfold PeerPool.idle
    simp only
    rw [List.getElem?_eq_none_iff]
    constructor
    · intro hlen p hp hq
      have hmem : p ∈ s.peers.filter (fun p => p.idle && filterFn p) := by
        simp [List.mem_filter, hp, hq.1, hq.2]
      have hpos : 0 < (s.peers.filter (fun p => p.idle && filterFn p)).length :=
        List.length_pos_of_mem hmem
      have := hidx hpos
      omega
    · intro hall
      have hnil : s.peers.filter (fun p => p.idle && filterFn p) = [] := by
        rw [List.filter_eq_nil_iff]
        intro p hp
        have := hall p hp
        simpa using this
      simp [hnil]
  · intro p hp
    unfold PeerPool.idle at hp
    simp only at hp
    have hmem := List.getElem?_mem hp
    rw [List.mem_filter] at hmem
    simpa using hmem

/-- C5 at the sample pool with the draw 2/3: of the idle peers A, B, C the third
is returned; the busy peer D never is. -/
theorem PeerPool.idle_qualifies_witness :
    samplePool.idle (fun _ => true) 2 3 = some samplePeerC ∧
      ∀ p, samplePool.idle (fun _ => true) 2 3 = some p →
        p ∈ samplePool.peers ∧ p.idle = true ∧ (fun _ => true) p = true :=
  ⟨by decide, (PeerPool.idle_qualifies samplePool (fun _ => true) 2 3 (by decide)).2.1⟩

/-! ## Well-formedness of the registry is kept by every call -/

theorem PeerPool.WF_new (servers : List Nat) (maxPeers : Nat) :
    (PeerPool.new servers maxPeers).WF := by
  simp [PeerPool.WF, PeerPool.new]

theorem PeerPool.get_isSome_false_iff (s : PeerPool) (k : Option String) :
    (s.get k).isSome = false ↔ k ∉ s.pool.map Prod.fst := by
  rw [← Bool.not_eq_true, PeerPool.get_isSome_iff]
  simp

theorem PeerPool.WF_add (s : PeerPool) (p : Option Peer) (h : s.WF) : (s.add p).1.WF := by
  cases p with
  | none => exact h
  | some p =>
    rw [PeerPool.add_some_eq]
    split
    · rename_i hc
      obtain ⟨h1, h2⟩ := h
      refine ⟨?_, ?_⟩
      · intro e he
        simp only [List.mem_append, List.mem_singleton] at he
        rcases he with he | he
        · exact h1 e he
        · rw [he]; exact hc.1
      · simp only [List.map_append, List.map_cons, List.map_nil]
        rw [List.nodup_append]
        refine ⟨h2, List.nodup_singleton _, ?_⟩
        intro a ha hb
        simp only [List.mem_singleton] at hb
        subst hb
        exact (PeerPool.get_isSome_false_iff s p.id).mp hc.2 ha
    · exact h

theorem PeerPool.WF_filter (s : PeerPool) (k : Option String) (h : s.WF) :
    PeerPool.WF { s with pool := s.pool.filter (fun e => !(e.1 == k)) } := by
  obtain ⟨h1, h2⟩ := h
  refine ⟨fun e he => h1 e (List.mem_of_mem_filter he), ?_⟩
  exact List.Nodup.sublist (List.Sublist.map _ (List.filter_sublist _)) h2

theorem PeerPool.WF_remove (s : PeerPool) (p : Option Peer) (h : s.WF) : (s.remove p).1.WF := by
  cases p with
  | none => exact h
  | some p =>
    rw [PeerPool.remove_some_eq]
    split_ifs
    · exact PeerPool.WF_filter s p.id h
    · exact PeerPool.WF_filter s p.id h
    · exact h

theorem PeerPool.WF_ban (s : PeerPool) (p : Peer) (a : Option Nat) (h : s.WF) :
    (s.ban p a).1.WF := by
  unfold PeerPool.ban
  cases p.server with
  | none => exact h
  | some srv => exact PeerPool.WF_remove s (some p) h

theorem PeerPool.WF_connected (s : PeerPool) (p : Peer) (h : s.WF) : (s.connected p).1.WF := by
  unfold PeerPool.connected
  split
  · exact h
  · exact PeerPool.WF_add _ _ h

theorem PeerPool.WF_errorHandler (s : PeerPool) (p : Peer) (h : s.WF) :
    (s.errorHandler p).1.WF := by
  unfold PeerPool.errorHandler
  split
  · exact PeerPool.WF_ban s p none h
  · exact h

theorem PeerPool.WF_step (s : PeerPool) (op : PeerPool.Op) (h : s.WF) : (s.step op).1.WF := by
  cases op with
  | add p => exact PeerPool.WF_add s p h
  | remove p => exact PeerPool.WF_remove s p h
  | connected p => exact PeerPool.WF_connected s p h
  | disconnected p => exact PeerPool.WF_remove s (some p) h
  | ban p a => exact PeerPool.WF_ban s p a h
  | peerError p =>
    exact PeerPool.runHandlers_inv PeerPool.WF _
      (fun t ht => PeerPool.WF_errorHandler t p ht) _ s h
  | peerMessage p m pr =>
    show (s.peerMessage p m pr).1.WF
    rw [PeerPool.peerMessage_fst]; exact h

theorem PeerPool.WF_run (ops : List PeerPool.Op) :
    ∀ s : PeerPool, s.WF → (PeerPool.run s ops).1.WF := by
  induction ops with
  | nil => intro s h; exact h
  | cons op rest ih => intro s h; exact ih _ (PeerPool.WF_step s op h)

theorem PeerPool.contains_false_of_falsy (s : PeerPool) (p : Peer) (h : s.WF)
    (hid : truthyId p.id = false) : (s.get p.id).isSome = false := by
  rw [← Bool.not_eq_true, PeerPool.get_isSome_iff]
  rintro ⟨e, he, hk⟩
  have := h.1 e he
  rw [hk, hid] at this
  cases this

/-! ## C6: `remove` -/

theorem PeerPool.remove_eq_of_WF (s : PeerPool) (p : Peer) (h : s.WF) :
    s.remove (some p)
      = ({ s with pool := s.pool.filter (fun e => !(e.1 == p.id)) },
          if s.contains p = true then [Effect.removed p] else []) := by
  rw [PeerPool.remove_some_eq]
  unfold PeerPool.contains
  by_cases h1 : truthyId p.id = true
  · by_cases h2 : (s.get p.id).isSome = true
    · simp [h1, h2]
    · simp [h1, h2]
  · have h1f : truthyId p.id = false := by simpa using h1
    have h2 := PeerPool.contains_false_of_falsy s p h h1f
    have h3 := PeerPool.filter_of_absent s p.id h2
    rw [h3]
    simp [h1f, h2]

theorem PeerPool.remove_absent (s : PeerPool) (p : Peer) (h : s.WF)
    (habs : s.contains p = false) : s.remove (some p) = (s, []) := by
  rw [PeerPool.remove_eq_of_WF s p h]
  have h3 := PeerPool.filter_of_absent s p.id habs
  rw [h3]
  simp [habs]

theorem PeerPool.contains_after_remove (s : PeerPool) (p : Peer) (h : s.WF) :
    (s.remove (some p)).1.contains p = false := by
  rw [PeerPool.remove_eq_of_WF s p h]
  unfold PeerPool.contains
  rw [← Bool.not_eq_true, PeerPool.get_isSome_iff]
  rintro ⟨e, he, hk⟩
  simp only [List.mem_filter] at he
  simp [hk] at he

theorem PeerPool.run_remove_absent (p : Peer) (n : Nat) (s : PeerPool) (h : s.WF)
    (habs : s.contains p = false) :
    PeerPool.run s (List.replicate n (PeerPool.Op.remove (some p))) = (s, []) := by
  induction n with
  | zero => rfl
  | succ n ih =>
    simp only [List.replicate_succ, PeerPool.run, PeerPool.step]
    rw [PeerPool.remove_absent s p h habs]
    simp only
    rw [ih]
    rfl

/-- C6: for every pool state reached from an empty pool by pool calls and every
peer, `remove(peer)` deletes the entry of the peer's identity and nothing else
(the registry keeps every other entry, in order, and all other fields), emits
"removed" with that peer exactly when the identity was in the registry and
nothing otherwise; afterwards the identity is absent, so `remove` on an absent
identity changes nothing and emits nothing, and any positive number of
consecutive `remove` calls for the peer emit "removed" once in total if it was
present and never otherwise. -/
theorem PeerPool.remove_emits_once (servers : List Nat) (maxPeers : Nat)
    (ops : List PeerPool.Op) (s : PeerPool)
    (hs : s = (PeerPool.run (PeerPool.new servers maxPeers) ops).1) (p : Peer) :
    s.remove (some p)
        = ({ s with pool := s.pool.filter (fun e => !(e.1 == p.id)) },
            if s.contains p = true then [Effect.removed p] else []) ∧
      (∀ e, e ∈ (s.remove (some p)).1.pool ↔ e ∈ s.pool ∧ e.1 ≠ p.id) ∧
      (s.remove (some p)).1.contains p = false ∧
      (s.contains p = false → s.remove (some p) = (s, [])) ∧
      (∀ n, (PeerPool.run s (List.replicate (n + 1) (PeerPool.Op.remove (some p)))).2
        = if s.contains p = true then [Effect.removed p] else []) := by
  have hwf : s.WF := by
    rw [hs]; exact PeerPool.WF_run ops _ (PeerPool.WF_new servers maxPeers)
  have heq := PeerPool.remove_eq_of_WF s p hwf
  refine ⟨heq, ?_, PeerPool.contains_after_remove s p hwf, PeerPool.remove_absent s p hwf, ?_⟩
  · intro e
    rw [heq]
    simp [List.mem_filter]
  · intro n
    have hwf2 := PeerPool.WF_remove s (some p) hwf
    have habs := PeerPool.contains_after_remove s p hwf
    simp only [List.replicate_succ, PeerPool.run, PeerPool.step]
    rw [PeerPool.run_remove_absent p n _ hwf2 habs]
    rw [heq]
    simp

/-- C6 at the pool reached by adding the sample peers A and C: two `remove(A)`
calls emit "removed" once. -/
theorem PeerPool.remove_emits_once_witness :
    (PeerPool.run
        (PeerPool.run (PeerPool.new [7] 25)
          [PeerPool.Op.add (some samplePeerA), PeerPool.Op.add (some samplePeerC)]).1
        (List.replicate (1 + 1) (PeerPool.Op.remove (some samplePeerA)))).2
      = [Effect.removed samplePeerA] :=
  ((PeerPool.remove_emits_once [7] 25
    [PeerPool.Op.add (some samplePeerA), PeerPool.Op.add (some samplePeerC)] _ rfl
    samplePeerA).2.2.2.2 1).trans (by decide)

/-! ## C7: `ban` -/

/-- C7 (as stated, refuted): the constructor leaves `server` null whatever the
options say, and `ban` returns at once for a peer without an owning server.  A
peer constructed with a server in its options is admitted by `connected`;
`ban(peer, 1000)` then calls no server, leaves the peer in the registry and
emits neither "removed" nor "banned". -/
theorem PeerPool.ban_without_server :
    PeerPool.contains
        (PeerPool.run (PeerPool.new [7] 25)
          [PeerPool.Op.connected (Peer.new 2 (some "b") (some 7))]).1
        (Peer.new 2 (some "b") (some 7)) = true ∧
      PeerPool.ban
        (PeerPool.run (PeerPool.new [7] 25)
          [PeerPool.Op.connected (Peer.new 2 (some "b") (some 7))]).1
        (Peer.new 2 (some "b") (some 7)) (some 1000)
      = ((PeerPool.run (PeerPool.new [7] 25)
          [PeerPool.Op.connected (Peer.new 2 (some "b") (some 7))]).1, []) := by
  decide

theorem PeerPool.runHandlers_error_absent (p : Peer) (n : Nat) (s : PeerPool)
    (habs : (s.get p.id).isSome = false) :
    PeerPool.runHandlers (fun t => t.errorHandler p) n s = (s, []) := by
  induction n with
  | zero => rfl
  | succ n ih =>
    simp only [PeerPool.runHandlers]
    have h1 : s.errorHandler p = (s, []) := by
      unfold PeerPool.errorHandler
      simp [habs]
    rw [h1]
    simp only
    rw [ih]
    rfl

/-- C7 (amended): for every pool state reached from an empty pool by pool calls
and every peer currently in its registry that has an owning server,
`ban(peer, duration)` calls the ban operation of that server with the peer's
identity and the duration, then deletes the entry of the peer's identity and
nothing else, emitting "removed" exactly once and then "banned" exactly once;
an `error` event of that peer, when `connected` has installed its handlers on
it, does the same with no duration given.  For a peer without an owning server
`ban` does nothing and emits nothing. -/
theorem PeerPool.ban_removes_once (servers : List Nat) (maxPeers : Nat)
    (ops : List PeerPool.Op) (s : PeerPool)
    (hs : s = (PeerPool.run (PeerPool.new servers maxPeers) ops).1) (p : Peer) (srv : Nat)
    (maxAge : Option Nat) (hin : s.contains p = true) (hsrv : p.server = some srv) :
    s.ban p maxAge
        = ({ s with pool := s.pool.filter (fun e => !(e.1 == p.id)) },
            [Effect.serverBan srv p.id maxAge, Effect.removed p, Effect.banned p]) ∧
      (s.ban p maxAge).1.contains p = false ∧
      (∀ e, e ∈ (s.ban p maxAge).1.pool ↔ e ∈ s.pool ∧ e.1 ≠ p.id) ∧
      (p.ref ∈ s.wired →
        s.peerError p
          = ({ s with pool := s.pool.filter (fun e => !(e.1 == p.id)) },
              [Effect.serverBan srv p.id none, Effect.removed p, Effect.banned p])) ∧
      (∀ (t : PeerPool) (q : Peer) (a : Option Nat), q.server = none → t.ban q a = (t, [])) := by
  have hwf : s.WF := by
    rw [hs]; exact PeerPool.WF_run ops _ (PeerPool.WF_new servers maxPeers)
  have hrem := PeerPool.remove_eq_of_WF s p hwf
  have hban : ∀ a : Option Nat, s.ban p a
      = ({ s with pool := s.pool.filter (fun e => !(e.1 == p.id)) },
          [Effect.serverBan srv p.id a, Effect.removed p, Effect.banned p]) := by
    intro a
    unfold PeerPool.ban
    rw [hsrv]
    simp only
    rw [hrem]
    simp [hin]
  have habs := PeerPool.contains_after_remove s p hwf
  rw [hrem] at habs
  refine ⟨hban maxAge, ?_, ?_, ?_, ?_⟩
  · rw [hban]; exact habs
  · intro e
    rw [hban]
    simp [List.mem_filter]
  · intro hw
    unfold PeerPool.peerError
    obtain ⟨n, hn⟩ : ∃ n, s.wired.count p.ref = n + 1 :=
      ⟨s.wired.count p.ref - 1, by have := List.count_pos_iff.mpr hw; omega⟩
    rw [hn]
    simp only [PeerPool.runHandlers]
    have h1 : s.errorHandler p = s.ban p none := by
      unfold PeerPool.errorHandler
      have : (s.get p.id).isSome = true := hin
      simp [this]
    rw [h1, hban none]
    simp only
    rw [PeerPool.runHandlers_error_absent p n _ habs]
    rfl
  · intro t q a hq
    unfold PeerPool.ban
    rw [hq]

/-- C7 (amended) at the pool reached by `connected(A)` twice and `connected(C)`:
`ban(A, 1000)` and an `error` event of A each call the server once, emit
"removed" once and "banned" once. -/
theorem PeerPool.ban_removes_once_witness :
    PeerPool.ban
        (PeerPool.run (PeerPool.new [7] 25)
          [PeerPool.Op.connected samplePeerA, PeerPool.Op.connected samplePeerA,
            PeerPool.Op.connected samplePeerC]).1
        samplePeerA (some 1000)
      = ({ servers := [7], maxPeers := 25, pool := [(some "c", samplePeerC)], opened := false,
            wired := [1, 1, 3] },
          [Effect.serverBan 7 (some "a") (some 1000), Effect.removed samplePeerA,
            Effect.banned samplePeerA]) ∧
      PeerPool.peerError
        (PeerPool.run (PeerPool.new [7] 25)
          [PeerPool.Op.connected samplePeerA, PeerPool.Op.connected samplePeerA,
            PeerPool.Op.connected samplePeerC]).1
        samplePeerA
      = ({ servers := [7], maxPeers := 25, pool := [(some "c", samplePeerC)], opened := false,
            wired := [1, 1, 3] },
          [Effect.serverBan 7 (some "a") none, Effect.removed samplePeerA,
            Effect.banned samplePeerA]) :=
  ⟨(PeerPool.ban_removes_once [7] 25
      [PeerPool.Op.connected samplePeerA, PeerPool.Op.connected samplePeerA,
        PeerPool.Op.connected samplePeerC] _ rfl samplePeerA 7 (some 1000)
      (by decide) rfl).1.trans (by decide),
   by decide⟩

/-! ## C8 and C9: `syncWithPeer` -/

theorem Synchronizer.syncWithPeer_syncJs (env : SyncEnv) (chain : Chain) (p : Peer)
    (header : Option Header) (hlatest : Synchronizer.latest env p = .ok header) :
    Synchronizer.syncWithPeer syncJs env chain (some p)
      = { value := .error (referenceError "BN"), chain := chain, fetcher := none,
          emitted := [] } := by
  simp [Synchronizer.syncWithPeer, hlatest, syncJs]

theorem Synchronizer.latest_of_answer (env : SyncEnv) (p : Peer) (eth : EthProtocol)
    (header : Header) (rest : List Header) (heth : p.eth = some eth)
    (hanswer : env.getBlockHeaders p = .ok (header :: rest)) :
    Synchronizer.latest env p = .ok (some header) := by
  simp [Synchronizer.latest, heth, hanswer]

/-- C8 (the code at the failing input): `sync.js` never binds `BN`.  For every
local height and every selected peer that answers with a latest header whose
number is at most the local height, `new BN(latest.number)` raises
`ReferenceError` before the stale test is reached: `syncWithPeer` rejects
instead of resolving to false, and a pass of a running loop with a listener
emits that error.  No `BlockFetcher` is created, the chain is unchanged and
nothing else is emitted; with no peer selected the value is false.  With `BN`
bound the same code resolves to false and creates no `BlockFetcher`. -/
theorem Synchronizer.syncWithPeer_stale_raises (env : SyncEnv) (chain : Chain) (p : Peer)
    (eth : EthProtocol) (header : Header) (rest : List Header)
    (heth : p.eth = some eth) (hanswer : env.getBlockHeaders p = .ok (header :: rest))
    (hstale : header.number ≤ chain.height) :
    Synchronizer.syncWithPeer syncJs env chain (some p)
        = { value := .error (referenceError "BN"), chain := chain, fetcher := none,
            emitted := [] } ∧
      (∀ (sy : Synchronizer) (listeners : Nat), sy.running = true → 0 < listeners →
        (sy.pass (Synchronizer.syncWithPeer syncJs env chain (some p)) listeners false
            false).events
          = [SyncEvent.error (referenceError "BN")]) ∧
      Synchronizer.syncWithPeer syncJs env chain none
        = { value := .ok false, chain := chain, fetcher := none, emitted := [] } ∧
      (∀ scope : SyncScope, scope.BN = true →
        Synchronizer.syncWithPeer scope env chain (some p)
          = { value := .ok false, chain := chain, fetcher := none, emitted := [] }) := by
  have hl := Synchronizer.latest_of_answer env p eth header rest heth hanswer
  have hcode := Synchronizer.syncWithPeer_syncJs env chain p (some header) hl
  refine ⟨hcode, ?_, rfl, ?_⟩
  · intro sy listeners hrun hpos
    rw [hcode]
    have : listeners ≠ 0 := by omega
    simp [Synchronizer.pass, hrun, this]
  · intro scope hbn
    simp only [Synchronizer.syncWithPeer, hl, hbn]
    simp only [Bool.not_true, Bool.false_eq_true, if_false]
    rw [if_pos (by omega)]

/-- C8 at scenario B of the integration test: local height 10, the selected
peer at height 9; the call rejects with `ReferenceError`. -/
theorem Synchronizer.syncWithPeer_stale_raises_witness :
    (Synchronizer.syncWithPeer syncJs (sampleEnv 9) { height := 10, td := 10 }
        (some samplePeerA)).value = .error (referenceError "BN") ∧
      (Synchronizer.pass { running := true }
        (Synchronizer.syncWithPeer syncJs (sampleEnv 9) { height := 10, td := 10 }
          (some samplePeerA)) 1 false false).events
        = [SyncEvent.error (referenceError "BN")] :=
  ⟨congrArg SyncOutcome.value
      (Synchronizer.syncWithPeer_stale_raises (sampleEnv 9) { height := 10, td := 10 }
        samplePeerA { status := { td := 5 } } { number := 9 } [] rfl rfl (by decide)).1,
   (Synchronizer.syncWithPeer_stale_raises (sampleEnv 9) { height := 10, td := 10 }
      samplePeerA { status := { td := 5 } } { number := 9 } [] rfl rfl (by decide)).2.1
      { running := true } 1 rfl (by decide)⟩

/-- C9 (the code at the failing input): `sync.js` never binds `BN`.  For every
local block height `h` and every peer whose latest header has number `p > h`,
`new BN(latest.number)` raises `ReferenceError`: `syncWithPeer` rejects, creates
no `BlockFetcher` and hands over no range, and the chain stays at height `h`.
With `BN` and `BlockFetcher` bound and `this.logger` set the same code hands the
fetcher `first = h + 1` and `count = p - h`, the range the claim names. -/
theorem Synchronizer.syncWithPeer_range_raises (env : SyncEnv) (chain : Chain) (p : Peer)
    (eth : EthProtocol) (header : Header) (rest : List Header)
    (heth : p.eth = some eth) (hanswer : env.getBlockHeaders p = .ok (header :: rest))
    (hahead : chain.height < header.number) :
    Synchronizer.syncWithPeer syncJs env chain (some p)
        = { value := .error (referenceError "BN"), chain := chain, fetcher := none,
            emitted := [] } ∧
      (Synchronizer.syncWithPeer syncJs env chain (some p)).fetcher = none ∧
      (Synchronizer.syncWithPeer syncJs env chain (some p)).chain.height = chain.height ∧
      (∀ scope : SyncScope, scope.BN = true → scope.logger = true →
        scope.BlockFetcher = true →
        (Synchronizer.syncWithPeer scope env chain (some p)).fetcher
          = some { first := (chain.height : Int) + 1,
                   count := (header.number : Int) - (chain.height : Int) } ∧
        (0 : Int) < (header.number : Int) - (chain.height : Int) ∧
        ((chain.height : Int) + 1) + ((header.number : Int) - (chain.height : Int)) - 1
          = (header.number : Int)) := by
  have hl := Synchronizer.latest_of_answer env p eth header rest heth hanswer
  have hcode := Synchronizer.syncWithPeer_syncJs env chain p (some header) hl
  refine ⟨hcode, by rw [hcode], by rw [hcode], ?_⟩
  intro scope hbn hlog hbf
  have hcount : (header.number : Int) - ((chain.height : Int) + 1) + 1
      = (header.number : Int) - (chain.height : Int) := by omega
  refine ⟨?_, by omega, by omega⟩
  simp only [Synchronizer.syncWithPeer, hl, hbn, hlog, hbf]
  simp only [Bool.not_true, Bool.false_eq_true, if_false]
  rw [if_neg (by omega), hcount]

/-- C9 at scenario A of the integration test: local height 0, the peer at
height 200; the call rejects with `ReferenceError`, no `BlockFetcher` is
created and the chain stays at height 0. -/
theorem Synchronizer.syncWithPeer_range_raises_witness :
    (Synchronizer.syncWithPeer syncJs (sampleEnv 200) { height := 0, td := 0 }
        (some samplePeerA)).value = .error (referenceError "BN") ∧
      (Synchronizer.syncWithPeer syncJs (sampleEnv 200) { height := 0, td := 0 }
        (some samplePeerA)).fetcher = none ∧
      (Synchronizer.syncWithPeer syncJs (sampleEnv 200) { height := 0, td := 0 }
        (some samplePeerA)).chain.height = 0 :=
  ⟨congrArg SyncOutcome.value
      (Synchronizer.syncWithPeer_range_raises (sampleEnv 200) { height := 0, td := 0 }
        samplePeerA { status := { td := 5 } } { number := 200 } [] rfl rfl (by decide)).1,
   (Synchronizer.syncWithPeer_range_raises (sampleEnv 200) { height := 0, td := 0 }
      samplePeerA { status := { td := 5 } } { number := 200 } [] rfl rfl (by decide)).2.1,
   (Synchronizer.syncWithPeer_range_raises (sampleEnv 200) { height := 0, td := 0 }
      samplePeerA { status := { td := 5 } } { number := 200 } [] rfl rfl (by decide)).2.2.1⟩

/-! ## C10: the error filter of the server -/

theorem regExpTest_iff (alternatives : List String) (input : String) :
    regExpTest alternatives input = true ↔
      ∃ a ∈ alternatives, ∃ pre post : String, input = pre ++ a ++ post := by
  unfold regExpTest
  simp only [List.any_eq_true, List.mem_tails]
  constructor
  · rintro ⟨rest, hrest, a, ha, hpre⟩
    rw [ List.isPrefixOf_iff_prefix] at hpre
    obtain ⟨t, ht⟩ := hpre
    obtain ⟨s, hs⟩ := hrest
    refine ⟨a, ha, ⟨s⟩, ⟨t⟩, ?_⟩
    apply String.ext
    simp [String.data_append, ← hs, ← ht]
  · rintro ⟨a, ha, pre, post, h⟩
    refine ⟨a.data ++ post.data, ⟨pre.data, ?_⟩, a, ha, ?_⟩
    · rw [h]; simp [String.data_append]
    · rw [ List.isPrefixOf_iff_prefix]
      exact ⟨post.data, rfl⟩

/-- C10: for every error and optional peer, `RlpxServer.error(error, peer)` emits
nothing at all exactly when the error's message contains one of the fixed
benign patterns; for every other error it emits exactly one "error" carrying
that error, on the peer when a peer is given and on the server otherwise. -/
theorem RlpxServer.error_swallows_iff_benign (error : Error) (peer : Option Peer) :
    (RlpxServer.error error peer = [] ↔
        ∃ a ∈ ["EPIPE", "ECONNRESET", "ETIMEDOUT", "NetworkId mismatch", "Timeout error: ping",
            "Genesis block mismatch", "Handshake timed out", "Invalid address buffer",
            "Invalid MAC", "Invalid timestamp buffer", "Hash verification failed"],
          ∃ pre post : String, error.message = pre ++ a ++ post) ∧
      (RlpxServer.error error peer ≠ [] →
        RlpxServer.error error peer
          = match peer with
            | some p => [ServerEffect.peerError p error]
            | none => [ServerEffect.serverError error]) := by
  have hlist : ["EPIPE", "ECONNRESET", "ETIMEDOUT", "NetworkId mismatch", "Timeout error: ping",
      "Genesis block mismatch", "Handshake timed out", "Invalid address buffer",
      "Invalid MAC", "Invalid timestamp buffer", "Hash verification failed"] = ignoredErrors := rfl
  rw [hlist, ← regExpTest_iff]
  unfold RlpxServer.error
  by_cases h : regExpTest ignoredErrors error.message = true
  · simp [h]
  · cases peer <;> simp [h]

/-- C10 at two concrete errors: a connection reset reported for a peer is
swallowed, any other error reported for a peer is emitted once on that peer. -/
theorem RlpxServer.error_swallows_iff_benign_witness :
    RlpxServer.error { message := "read ECONNRESET" } (some samplePeerA) = [] ∧
      RlpxServer.error { message := "boom" } (some samplePeerA)
        = [ServerEffect.peerError samplePeerA { message := "boom" }] :=
  ⟨(RlpxServer.error_swallows_iff_benign { message := "read ECONNRESET" }
      (some samplePeerA)).1.mpr ⟨"ECONNRESET", by decide, "read ", "", by decide⟩,
   (RlpxServer.error_swallows_iff_benign { message := "boom" } (some samplePeerA)).2
      (by decide)⟩

/-! ## C11: `RlpxServer.ban` -/

/-- C11 (as stated, refuted): `ban` does not touch the server's tracking.  A
started server tracks the peer of identity "a" after the transport's
`peer:added`; `ban("a", 1000)` instructs the discovery layer and the peer of
identity "a" is still tracked afterwards. -/
theorem RlpxServer.ban_keeps_tracked_peer :
    (RlpxServer.peerAdded sampleBind
        { ref := 7, started := true, protocols := [{ name := "eth" }] } 1 "a"
        [{ constructorName := "ETH" }]).1.started = true ∧
      (RlpxServer.ban
        (RlpxServer.peerAdded sampleBind
          { ref := 7, started := true, protocols := [{ name := "eth" }] } 1 "a"
          [{ constructorName := "ETH" }]).1
        (some "a") (some 1000)).2 = [DptCall.banPeer (some "a") 1000] ∧
      ((RlpxServer.ban
        (RlpxServer.peerAdded sampleBind
          { ref := 7, started := true, protocols := [{ name := "eth" }] } 1 "a"
          [{ constructorName := "ETH" }]).1
        (some "a") (some 1000)).1.get (some "a")).isSome = true := by
  decide

/-- C11 (amended): for every started server and every identity,
`ban(id, duration)` instructs the discovery layer to ban that identity for the
given duration, 60000 ms when none is given, and leaves the server's own
tracking of live peers as it was; a tracked peer (each is tracked under its own
identity, as the `peer:added` handler stores it) leaves the tracking when the
transport reports `peer:removed` for its identity, whose handler deletes it and
emits "disconnected". -/
theorem RlpxServer.ban_instructs_dpt (sv : RlpxServer) (peerId : Option String)
    (maxAge : Option Nat) (hstarted : sv.started = true)
    (hkeys : ∀ e ∈ sv.peers, e.2.id = e.1) :
    sv.ban peerId maxAge = (sv, [DptCall.banPeer peerId (maxAge.getD 60000)]) ∧
      sv.ban peerId none = (sv, [DptCall.banPeer peerId 60000]) ∧
      (sv.ban peerId maxAge).1.peers = sv.peers ∧
      (∀ id : String, ((sv.peerRemoved id).1.get (some id)) = none ∧
        ((sv.peerRemoved id).2 ≠ [] ↔ (sv.get (some id)).isSome = true)) := by
  have hban : ∀ a : Option Nat, sv.ban peerId a = (sv, [DptCall.banPeer peerId (a.getD 60000)]) := by
    intro a
    simp [RlpxServer.ban, hstarted]
  refine ⟨hban maxAge, hban none, by rw [hban], ?_⟩
  intro id
  unfold RlpxServer.peerRemoved
  cases hget : sv.get (some id) with
  | none => simp [hget]
  | some peer =>
    have hid : peer.id = some id := by
      unfold RlpxServer.get at hget
      cases hfind : sv.peers.find? (fun e => e.1 == some id) with
      | none => simp [hfind] at hget
      | some e =>
        simp [hfind] at hget
        have hmem := List.mem_of_find?_eq_some hfind
        have hk := List.find?_some hfind
        have := hkeys e hmem
        rw [hget] at this
        rw [this]
        simpa using hk
    refine ⟨?_, by simp⟩
    simp only
    unfold RlpxServer.get
    rw [hid]
    have : List.find? (fun e => e.1 == some id)
        (List.filter (fun e => !(e.1 == some id)) sv.peers) = none := by
      rw [List.find?_eq_none]
      intro e he
      simp only [List.mem_filter] at he
      simpa using he.2
    simp [this]

/-- C11 (amended) at the server tracking the peer of identity "a": the ban
goes to the discovery layer with the default duration and the tracking is
unchanged; `peer:removed` then deletes the peer. -/
theorem RlpxServer.ban_instructs_dpt_witness :
    RlpxServer.ban
        { ref := 7, started := true, protocols := [{ name := "eth" }],
          peers := [(some "a", samplePeerA)] }
        (some "a") none
      = ({ ref := 7, started := true, protocols := [{ name := "eth" }],
           peers := [(some "a", samplePeerA)] },
         [DptCall.banPeer (some "a") 60000]) :=
  (RlpxServer.ban_instructs_dpt
    { ref := 7, started := true, protocols := [{ name := "eth" }],
      peers := [(some "a", samplePeerA)] }
    (some "a") none rfl (by decide)).2.1

/-! ## C12: protocol binding -/

/-- C12 (as stated, refuted): `bindProtocols` binds the sessions the transport
passes, not the configured list.  A peer configured with `eth` and `les` that is
passed the single session `ETH` ends with `connected = true`, understands `eth`
and does not understand `les`. -/
theorem Peer.bindProtocols_leaves_unbound :
    (Peer.bindProtocols sampleBind
        { ref := 1, id := some "a", protocols := [{ name := "eth" }, { name := "les" }] }
        [{ constructorName := "ETH" }]).1.connected = true ∧
      Peer.understands
        (Peer.bindProtocols sampleBind
          { ref := 1, id := some "a", protocols := [{ name := "eth" }, { name := "les" }] }
          [{ constructorName := "ETH" }]).1 "eth" = true ∧
      Peer.understands
        (Peer.bindProtocols sampleBind
          { ref := 1, id := some "a", protocols := [{ name := "eth" }, { name := "les" }] }
          [{ constructorName := "ETH" }]).1 "les" = false := by
  decide

theorem Peer.understands_iff (peer : Peer) (n : String) :
    peer.understands n = true ↔ ∃ e ∈ peer.bound, e.1 = n := by
  unfold Peer.understands
  simp [List.find?_isSome]

theorem Peer.mem_boundSet (m : List (String × BoundProtocol)) (k : String) (v : BoundProtocol)
    (n : String) :
    (∃ e ∈ Peer.boundSet m k v, e.1 = n) ↔ (∃ e ∈ m, e.1 = n) ∨ n = k := by
  unfold Peer.boundSet
  by_cases h : m.any (fun e => e.1 == k) = true
  · rw [if_pos h]
    simp only [List.any_eq_true, beq_iff_eq] at h
    obtain ⟨e0, he0, hk0⟩ := h
    constructor
    · rintro ⟨e, he, hn⟩
      simp only [List.mem_map] at he
      obtain ⟨a, ha, hae⟩ := he
      by_cases hak : a.1 = k
      · simp [hak] at hae
        right; rw [← hn, ← hae]
      · simp [hak] at hae
        left; exact ⟨a, ha, by rw [hae]; exact hn⟩
    · rintro (⟨e, he, hn⟩ | hn)
      · by_cases hek : e.1 = k
        · refine ⟨(k, v), ?_, by rw [← hn, hek]⟩
          simp only [List.mem_map]
          exact ⟨e, he, by simp [hek]⟩
        · refine ⟨e, ?_, hn⟩
          simp only [List.mem_map]
          exact ⟨e, he, by simp [hek]⟩
      · refine ⟨(k, v), ?_, hn.symm⟩
        simp only [List.mem_map]
        exact ⟨e0, he0, by simp [hk0]⟩
  · rw [if_neg h]
    constructor
    · rintro ⟨e, he, hn⟩
      simp only [List.mem_append, List.mem_singleton] at he
      rcases he with he | he
      · left; exact ⟨e, he, hn⟩
      · right; rw [← hn, he]
    · rintro (⟨e, he, hn⟩ | hn)
      · exact ⟨e, by simp [he], hn⟩
      · exact ⟨(k, v), by simp, hn.symm⟩

/-- What `bindAll` keeps and adds: the configuration and the `connected` flag
are untouched, handles once bound stay bound, every bound name is a configured
one, and when nothing was rejected every session with a configured name is
bound. -/
theorem Peer.bindAll_spec (bind : Bind)
    (hname : ∀ p q s b, bind p q s = .ok b → b.name = p.name)
    (sessions : List RlpxProtocol) :
    ∀ peer : Peer,
      (Peer.bindAll bind peer sessions).1.protocols = peer.protocols ∧
      (Peer.bindAll bind peer sessions).1.connected = peer.connected ∧
      (∀ n, peer.understands n = true →
        (Peer.bindAll bind peer sessions).1.understands n = true) ∧
      (∀ n, (Peer.bindAll bind peer sessions).1.understands n = true →
        peer.understands n = true ∨
          ((∃ p ∈ peer.protocols, p.name = n) ∧
            ∃ s ∈ sessions, toLowerCase s.constructorName = n)) ∧
      ((Peer.bindAll bind peer sessions).2 = none →
        ∀ s ∈ sessions, ∀ p ∈ peer.protocols, p.name = toLowerCase s.constructorName →
          (Peer.bindAll bind peer sessions).1.understands p.name = true) := by
  induction sessions with
  | nil =>
    intro peer
    refine ⟨rfl, rfl, fun n h => h, fun n h => Or.inl h, ?_⟩
    intro _ s hs
    simp at hs
  | cons s rest ih =>
    intro peer
    cases hfind : peer.protocols.find? (fun p => p.name == toLowerCase s.constructorName) with
    | none =>
      have hstep : Peer.bindAll bind peer (s :: rest) = Peer.bindAll bind peer rest := by
        simp [Peer.bindAll, hfind]
      rw [hstep]
      obtain ⟨h1, h2, h3, h4, h5⟩ := ih peer
      refine ⟨h1, h2, h3, ?_, ?_⟩
      · intro n hn
        rcases h4 n hn with h | ⟨hp, t, ht, htn⟩
        · exact Or.inl h
        · exact Or.inr ⟨hp, t, List.mem_cons_of_mem _ ht, htn⟩
      intro hnone t ht p hp hpn
      rcases List.mem_cons.mp ht with ht | ht
      · subst ht
        rw [List.find?_eq_none] at hfind
        have := hfind p hp
        simp [hpn] at this
      · exact h5 hnone t ht p hp hpn
    | some protocol =>
      have hpmem := List.mem_of_find?_eq_some hfind
      have hpname : protocol.name = toLowerCase s.constructorName := by
        simpa using List.find?_some hfind
      cases hb : bind protocol peer s with
      | error e =>
        have hstep : Peer.bindAll bind peer (s :: rest)
            = ((Peer.bindAll bind peer rest).1, some e) := by
          simp [Peer.bindAll, hfind, Peer.bindProtocol, hb]
        rw [hstep]
        obtain ⟨h1, h2, h3, h4, _⟩ := ih peer
        refine ⟨h1, h2, h3, ?_, ?_⟩
        · intro n hn
          rcases h4 n hn with h | ⟨hp, t, ht, htn⟩
          · exact Or.inl h
          · exact Or.inr ⟨hp, t, List.mem_cons_of_mem _ ht, htn⟩
        intro hnone
        cases hnone
      | ok bound =>
        have hbn := hname protocol peer s bound hb
        have hstep : Peer.bindAll bind peer (s :: rest)
            = Peer.bindAll bind
                { peer with bound := Peer.boundSet peer.bound bound.name bound } rest := by
          simp [Peer.bindAll, hfind, Peer.bindProtocol, hb]
        rw [hstep]
        have hu : ∀ n, Peer.understands
            { peer with bound := Peer.boundSet peer.bound bound.name bound } n = true ↔
            (peer.understands n = true ∨ n = protocol.name) := by
          intro n
          rw [Peer.understands_iff, Peer.understands_iff]
          simp only
          rw [Peer.mem_boundSet, hbn]
        obtain ⟨h1, h2, h3, h4, h5⟩ :=
          ih { peer with bound := Peer.boundSet peer.bound bound.name bound }
        refine ⟨h1, h2, ?_, ?_, ?_⟩
        · intro n hn
          exact h3 n ((hu n).mpr (Or.inl hn))
        · intro n hn
          rcases h4 n hn with h | ⟨hp, t, ht, htn⟩
          · rcases (hu n).mp h with h | h
            · exact Or.inl h
            · exact Or.inr ⟨⟨protocol, hpmem, h.symm⟩, s, List.mem_cons_self _ _,
                by rw [h, hpname]⟩
          · exact Or.inr ⟨hp, t, List.mem_cons_of_mem _ ht, htn⟩
        · intro hnone t ht p hp hpn
          rcases List.mem_cons.mp ht with ht | ht
          · subst ht
            apply h3
            apply (hu p.name).mpr
            right
            rw [hpn, hpname]
          · exact h5 hnone t ht p hp hpn

/-- C12 (amended): for every peer with a configured protocol list that is not
yet connected and whose bound names are configured ones (none are bound on a
new peer), and every list of transport sessions passed to `bindProtocols`,
given that the handle `protocol.bind` resolves to carries the protocol's name:
whenever the peer ends with `connected = true`, every configured protocol whose
name is the lower-cased class name of one of the sessions has a bound session
(`understands` is true for its name), and every name for which `understands` is
true is the name of a configured protocol.  A configured protocol for which no
session was passed stays unbound. -/
theorem Peer.bindProtocols_binds_sessions (bind : Bind) (peer : Peer)
    (sessions : List RlpxProtocol)
    (hname : ∀ p q s b, bind p q s = .ok b → b.name = p.name)
    (hfresh : peer.connected = false)
    (hinv : ∀ n, peer.understands n = true → ∃ p ∈ peer.protocols, p.name = n) :
    ((Peer.bindProtocols bind peer sessions).1.connected = true →
        ∀ s ∈ sessions, ∀ p ∈ peer.protocols, p.name = toLowerCase s.constructorName →
          (Peer.bindProtocols bind peer sessions).1.understands p.name = true) ∧
      (∀ n, (Peer.bindProtocols bind peer sessions).1.understands n = true →
        ∃ p ∈ peer.protocols, p.name = n) ∧
      (∀ p ∈ peer.protocols,
        (∀ s ∈ sessions, toLowerCase s.constructorName ≠ p.name) →
        peer.understands p.name = false →
        (Peer.bindProtocols bind peer sessions).1.understands p.name = false) := by
  obtain ⟨h1, h2, h3, h4, h5⟩ := Peer.bindAll_spec bind hname sessions peer
  have hund : ∀ n, (Peer.bindProtocols bind peer sessions).1.understands n
      = (Peer.bindAll bind peer sessions).1.understands n := by
    intro n
    unfold Peer.bindProtocols
    rcases hr : Peer.bindAll bind peer sessions with ⟨q, _ | e⟩ <;> rfl
  refine ⟨?_, ?_, ?_⟩
  · intro hconn s hs p hp hpn
    rw [hund]
    apply h5 _ s hs p hp hpn
    unfold Peer.bindProtocols at hconn
    rcases hr : Peer.bindAll bind peer sessions with ⟨q, _ | e⟩
    · rfl
    · rw [hr] at hconn h2
      simp only at hconn h2
      rw [h2, hfresh] at hconn
      cases hconn
  · intro n hn
    rw [hund] at hn
    rcases h4 n hn with h | h
    · exact hinv n h
    · exact h.1
  · intro p hp hno hnot
    rw [hund]
    cases hres : (Peer.bindAll bind peer sessions).1.understands p.name with
    | false => rfl
    | true =>
      rcases h4 p.name hres with h | ⟨_, t, ht, htn⟩
      · rw [hnot] at h; cases h
      · exact absurd htn (hno t ht)

/-- C12 (amended) at a new peer configured with `eth` and `les` that is passed
the sessions `ETH` and `SHH`: it ends connected, `eth` is bound, and every bound
name is a configured one. -/
theorem Peer.bindProtocols_binds_sessions_witness :
    (Peer.bindProtocols sampleBind
        { ref := 1, id := some "a", protocols := [{ name := "eth" }, { name := "les" }] }
        [{ constructorName := "ETH" }, { constructorName := "SHH" }]).1.connected = true ∧
      (∀ n, Peer.understands
          (Peer.bindProtocols sampleBind
            { ref := 1, id := some "a", protocols := [{ name := "eth" }, { name := "les" }] }
            [{ constructorName := "ETH" }, { constructorName := "SHH" }]).1 n = true →
        ∃ p ∈ [({ name := "eth" } : Protocol), { name := "les" }], p.name = n) :=
  ⟨by decide,
   (Peer.bindProtocols_binds_sessions sampleBind
      { ref := 1, id := some "a", protocols := [{ name := "eth" }, { name := "les" }] }
      [{ constructorName := "ETH" }, { constructorName := "SHH" }]
      (fun p _ _ b h => by
        simp only [sampleBind, Except.ok.injEq] at h
        rw [← h])
      rfl
      (fun n h => by simp [Peer.understands] at h)).2.1⟩

/-! ## C13: forwarding of peer messages -/

/-- C13 (as stated, refuted): the handler tests the identity, not the peer
object.  After `connected(a1)`, a second peer object `a2` with the same
identity "a" is refused by `add` but has the handlers installed; `a2` is not in
the registry, and a message event of `a2` is forwarded by the pool. -/
theorem PeerPool.forwards_for_refused_duplicate :
    ({ ref := 2, id := some "a", server := some 7 } : Peer) ∉
        (PeerPool.run (PeerPool.new [7] 25)
          [PeerPool.Op.connected { ref := 1, id := some "a", server := some 7 },
            PeerPool.Op.connected { ref := 2, id := some "a", server := some 7 }]).1.peers ∧
      (PeerPool.run (PeerPool.new [7] 25)
          [PeerPool.Op.connected { ref := 1, id := some "a", server := some 7 },
            PeerPool.Op.connected { ref := 2, id := some "a", server := some 7 }]).2
        = [Effect.added { ref := 1, id := some "a", server := some 7 }] ∧
      (PeerPool.peerMessage
          (PeerPool.run (PeerPool.new [7] 25)
            [PeerPool.Op.connected { ref := 1, id := some "a", server := some 7 },
              PeerPool.Op.connected { ref := 2, id := some "a", server := some 7 }]).1
          { ref := 2, id := some "a", server := some 7 } "status" "eth").2
        = [Effect.message "status" "eth" { ref := 2, id := some "a", server := some 7 },
            Effect.messageProtocol "eth" "status"
              { ref := 2, id := some "a", server := some 7 }] := by
  decide

theorem PeerPool.runHandlers_message_mem (p : Peer) (m pr : String) (n : Nat) :
    ∀ s : PeerPool, ∀ e ∈ (PeerPool.runHandlers (fun t => t.messageHandler p m pr) n s).2,
      e = Effect.message m pr p ∨ e = Effect.messageProtocol pr m p := by
  induction n with
  | zero => intro s e he; simp [PeerPool.runHandlers] at he
  | succ n ih =>
    intro s e he
    simp only [PeerPool.runHandlers, List.mem_append] at he
    rcases he with he | he
    · unfold PeerPool.messageHandler at he
      split at he <;> simp at he
      exact he
    · exact ih _ e he

theorem PeerPool.runHandlers_message_absent (p : Peer) (m pr : String) (n : Nat)
    (s : PeerPool) (habs : (s.get p.id).isSome = false) :
    PeerPool.runHandlers (fun t => t.messageHandler p m pr) n s = (s, []) := by
  induction n with
  | zero => rfl
  | succ n ih =>
    have h1 : s.messageHandler p m pr = (s, []) := by
      unfold PeerPool.messageHandler
      simp [habs]
    simp only [PeerPool.runHandlers, h1]
    rw [ih]
    rfl

/-- C13 (amended): for every pool state reached from an empty pool by
`connected`, `disconnected`, `ban`, `add` and `remove` calls and peer events, a
message event raised by peer object `p` leaves the pool as it is and makes it
emit only "message" and "message:<protocol>" events for `p`, and it emits any
exactly when `connected` has installed its handlers on `p` and the identity of
`p` is a key of the registry at that moment.  So nothing is forwarded for a
peer refused because the pool was full (no handler is installed) nor for a
peer whose identity has been removed; a peer refused because its identity is
held by another peer object does have its events forwarded while that identity
stays in the registry. -/
theorem PeerPool.forwards_iff_identity_held (servers : List Nat) (maxPeers : Nat)
    (ops : List PeerPool.Op) (s : PeerPool)
    (hs : s = (PeerPool.run (PeerPool.new servers maxPeers) ops).1)
    (p : Peer) (m pr : String) :
    (s.peerMessage p m pr).1 = s ∧
      (∀ e ∈ (s.peerMessage p m pr).2,
        e = Effect.message m pr p ∨ e = Effect.messageProtocol pr m p) ∧
      ((s.peerMessage p m pr).2 ≠ [] ↔ (p.ref ∈ s.wired ∧ s.contains p = true)) ∧
      (s.maxPeers ≤ s.size → s.connected p = (s, [])) ∧
      ((s.remove (some p)).1.peerMessage p m pr).2 = [] := by
  have hwf : s.WF := by
    rw [hs]; exact PeerPool.WF_run ops _ (PeerPool.WF_new servers maxPeers)
  refine ⟨PeerPool.peerMessage_fst s p m pr, ?_, ?_, ?_, ?_⟩
  · exact PeerPool.runHandlers_message_mem p m pr _ s
  · unfold PeerPool.peerMessage PeerPool.contains
    cases hc : (s.get p.id).isSome with
    | false =>
      rw [PeerPool.runHandlers_message_absent p m pr _ s hc]
      simp
    | true =>
      cases hn : s.wired.count p.ref with
      | zero =>
        have : p.ref ∉ s.wired := List.count_eq_zero.mp hn
        simp [PeerPool.runHandlers, this]
      | succ n =>
        have hmem : p.ref ∈ s.wired := by
          apply List.count_pos_iff.mp
          omega
        have h1 : s.messageHandler p m pr
            = (s, [Effect.message m pr p, Effect.messageProtocol pr m p]) := by
          unfold PeerPool.messageHandler
          simp [hc]
        simp [PeerPool.runHandlers, h1, hmem]
  · intro hfull
    unfold PeerPool.connected
    rw [if_pos hfull]
  · have habs := PeerPool.contains_after_remove s p hwf
    unfold PeerPool.peerMessage
    rw [PeerPool.runHandlers_message_absent p m pr _ _ habs]

/-- C13 (amended) at the pool reached by `connected(A)`, `connected(C)` and
`disconnected(A)`: a message event of A is not forwarded, one of C is. -/
theorem PeerPool.forwards_iff_identity_held_witness :
    (PeerPool.peerMessage
        (PeerPool.run (PeerPool.new [7] 25)
          [PeerPool.Op.connected samplePeerA, PeerPool.Op.connected samplePeerC,
            PeerPool.Op.disconnected samplePeerA]).1
        samplePeerA "status" "eth").2 = [] ∧
      (PeerPool.peerMessage
        (PeerPool.run (PeerPool.new [7] 25)
          [PeerPool.Op.connected samplePeerA, PeerPool.Op.connected samplePeerC,
            PeerPool.Op.disconnected samplePeerA]).1
        samplePeerC "status" "eth").2 ≠ [] :=
  ⟨by
    have h := (PeerPool.forwards_iff_identity_held [7] 25
      [PeerPool.Op.connected samplePeerA, PeerPool.Op.connected samplePeerC,
        PeerPool.Op.disconnected samplePeerA] _ rfl samplePeerA "status" "eth").2.2.1
    by_contra hne
    exact absurd (h.mp hne).2 (by decide),
   (PeerPool.forwards_iff_identity_held [7] 25
      [PeerPool.Op.connected samplePeerA, PeerPool.Op.connected samplePeerC,
        PeerPool.Op.disconnected samplePeerA] _ rfl samplePeerC "status" "eth").2.2.1.mpr
      ⟨by decide, by decide⟩⟩

/-! ## C14: errors in the loop -/

theorem Synchronizer.sync_syncJs_quiet (sy : Synchronizer) (env : SyncEnv) (pool : PeerPool)
    (chain : Chain) :
    (sy.sync syncJs env pool chain).emitted = [] ∧
      (sy.sync syncJs env pool chain).fetcher = none ∧
      (sy.sync syncJs env pool chain).chain = chain := by
  unfold Synchronizer.sync Synchronizer.syncWithPeer
  cases sy.best pool chain with
  | none => simp
  | some p =>
    simp only
    cases Synchronizer.latest env p with
    | error e => simp
    | ok h => simp [syncJs]

/-- C14 (as stated, refuted): the `catch` clause calls `emit('error', error)`,
which throws when the synchronizer has no `error` listener.  A running
synchronizer without a listener selects the sample peer C, whose answer makes
`sync ()` fail; the pass throws that error out of the loop: no further pass
follows although `running` is still set and no `stop` was requested. -/
theorem Synchronizer.pass_without_listener_leaves_loop :
    Synchronizer.pass { minPeers := 1, running := true }
        (Synchronizer.sync { minPeers := 1, running := true } syncJs (sampleEnv 200)
          samplePool { height := 0, td := 0 })
        0 false false
      = { sy := { minPeers := 1, running := true },
          events := [SyncEvent.error (referenceError "BN")],
          thrown := some (referenceError "BN"),
          continues := false } := by
  decide

/-- C14 (amended): for every pass of the loop of `start` in which `sync ()`
fails with an error while the synchronizer is running and has an `error`
listener attached, exactly one "error" carrying that error is emitted and
nothing else, so no "synchronized"; when no `stop` is requested the
synchronizer is left as it was, `running` set, and the loop goes into the
next pass; and whenever `running` is cleared after a pass or the loop is left,
a `stop` was requested.  Without an `error` listener the same `emit` throws:
the error leaves the loop, which ends with `running` still set. -/
theorem Synchronizer.pass_emits_error (sy : Synchronizer) (env : SyncEnv) (pool : PeerPool)
    (chain : Chain) (e : Error) (listeners : Nat) (hrunning : sy.running = true)
    (hfail : (sy.sync syncJs env pool chain).value = .error e)
    (hlistener : 0 < listeners) :
    (∀ b, (sy.pass (sy.sync syncJs env pool chain) listeners false b).events
        = [SyncEvent.error e]) ∧
      (∀ b, SyncEvent.synchronized ∉
        (sy.pass (sy.sync syncJs env pool chain) listeners false b).events) ∧
      sy.pass (sy.sync syncJs env pool chain) listeners false false
        = { sy := sy, events := [SyncEvent.error e], thrown := none, continues := true } ∧
      (∀ a b, (sy.pass (sy.sync syncJs env pool chain) listeners a b).sy.running = false ∨
          (sy.pass (sy.sync syncJs env pool chain) listeners a b).continues = false →
        a = true ∨ b = true) ∧
      (∀ b, sy.pass (sy.sync syncJs env pool chain) 0 false b
        = { sy := sy, events := [SyncEvent.error e], thrown := some e,
            continues := false }) := by
  have hquiet := (Synchronizer.sync_syncJs_quiet sy env pool chain).1
  have hne : listeners ≠ 0 := by omega
  have hev : ∀ b, (sy.pass (sy.sync syncJs env pool chain) listeners false b).events
      = [SyncEvent.error e] := by
    intro b
    simp [Synchronizer.pass, hfail, hrunning, hquiet, hne]
  refine ⟨hev, ?_, ?_, ?_, ?_⟩
  · intro b
    rw [hev b]
    simp
  · simp [Synchronizer.pass, Synchronizer.loopExit, hfail, hrunning, hquiet, hne]
  · intro a b h
    cases a <;> cases b <;>
      simp_all [Synchronizer.pass, Synchronizer.loopExit, Synchronizer.stop]
  · intro b
    simp [Synchronizer.pass, hfail, hrunning, hquiet]

/-- C14 (amended) at a running synchronizer with one `error` listener whose
selected peer answers with an error: one "error" event, and the loop goes on
with the synchronizer unchanged. -/
theorem Synchronizer.pass_emits_error_witness :
    Synchronizer.pass { minPeers := 1, running := true }
        (Synchronizer.sync { minPeers := 1, running := true } syncJs
          { getBlockHeaders := fun _ => .error { message := "peer disconnected" },
            fetch := (sampleEnv 0).fetch }
          samplePool { height := 0, td := 0 })
        1 false false
      = { sy := { minPeers := 1, running := true },
          events := [SyncEvent.error { message := "peer disconnected" }],
          thrown := none, continues := true } :=
  (Synchronizer.pass_emits_error { minPeers := 1, running := true }
    { getBlockHeaders := fun _ => .error { message := "peer disconnected" },
      fetch := (sampleEnv 0).fetch }
    samplePool { height := 0, td := 0 } { message := "peer disconnected" } 1 rfl rfl
    (by decide)).2.2.1

/-! ## C15 and C16: construction of the service -/

/-- C15: constructing an `EthereumService` raises an error if and only if the
options carry no server; when a server is given, construction succeeds with
`opened = false` and `running = false`. -/
theorem EthereumService.new_throws_iff_no_server (options : ServiceOptions) :
    ((∃ e, EthereumService.new options = .error e) ↔ options.server = none) ∧
      (∀ server, options.server = some server →
        ∃ service, EthereumService.new options = .ok service ∧
          service.opened = false ∧ service.running = false ∧ service.server = server) := by
  constructor
  · cases h : options.server with
    | none => simp [EthereumService.new, h]
    | some server => simp [EthereumService.new, h]
  · intro server h
    simp [EthereumService.new, h]

/-- C15 at the options `{ server: 7, minPeers: 1 }`. -/
theorem EthereumService.new_throws_iff_no_server_witness :
    ∃ service, EthereumService.new { server := some 7, minPeers := some 1 } = .ok service ∧
      service.opened = false ∧ service.running = false ∧ service.server = 7 :=
  (EthereumService.new_throws_iff_no_server { server := some 7, minPeers := some 1 }).2 7 rfl

/-- C16 (the code at the failing input): the constructor hands the server to
`new PeerPool` under the key `server`, which the pool does not read.  For every
service constructed with a server the pool lists no server; `pool.open ()`
installs no handler, and a `connected` or `disconnected` signal of the
service's server, or of any server, reaches neither `PeerPool.connected` nor
`PeerPool.disconnected`: the pool is left as it was and emits nothing.  A pool
constructed with `servers: [server]` does hand both signals on. -/
theorem EthereumService.pool_has_no_servers (options : ServiceOptions) (server : Nat)
    (hserver : options.server = some server) :
    ∃ service, EthereumService.new options = .ok service ∧
      service.server = server ∧
      service.pool.servers = [] ∧
      service.pool.open.listening = [] ∧
      (∀ srv peer, service.pool.open.serverConnected srv peer = (service.pool.open, [])) ∧
      (∀ srv peer, service.pool.open.serverDisconnected srv peer = (service.pool.open, [])) ∧
      (∀ peer, (PeerPool.fromOptions { servers := some [server] }).open.serverConnected
          server peer
        = (PeerPool.fromOptions { servers := some [server] }).open.connected peer) ∧
      (∀ peer, (PeerPool.fromOptions { servers := some [server] }).open.serverDisconnected
          server peer
        = (PeerPool.fromOptions { servers := some [server] }).open.disconnected peer) := by
  have hnew : EthereumService.new options
      = .ok { opened := false, running := false, server := server,
              pool := PeerPool.fromOptions
                { server := some server, maxPeers := some (options.maxPeers.getD 25) },
              chain := options.chain.getD {}, minPeers := options.minPeers.getD 3,
              interval := options.interval.getD 1000, timeout := options.timeout.getD 5000,
              synchronizer := none } := by
    simp only [EthereumService.new, hserver]
  refine ⟨_, hnew, rfl, rfl, rfl, ?_, ?_, ?_, ?_⟩
  · intro srv peer; rfl
  · intro srv peer; rfl
  · intro peer
    simp [PeerPool.serverConnected, PeerPool.fromOptions, PeerPool.new, PeerPool.open,
      PeerPool.runHandlers]
  · intro peer
    simp [PeerPool.serverDisconnected, PeerPool.fromOptions, PeerPool.new, PeerPool.open,
      PeerPool.runHandlers]

/-- C16 at the service constructed with server 7: after `pool.open ()` a
`connected` signal of server 7 with the sample peer A leaves the pool empty. -/
theorem EthereumService.pool_has_no_servers_witness :
    ∃ service, EthereumService.new { server := some 7 } = .ok service ∧
      service.server = 7 ∧
      service.pool.servers = [] ∧
      (service.pool.open.serverConnected 7 samplePeerA).1.pool = [] ∧
      (service.pool.open.serverConnected 7 samplePeerA).2 = [] :=
  match EthereumService.pool_has_no_servers { server := some 7 } 7 rfl with
  | ⟨service, h1, h2, h3, _, h5, _⟩ =>
    ⟨service, h1, h2, h3, by
      rw [h5 7 samplePeerA]
      simp only [PeerPool.open, PeerPool.fromOptions, PeerPool.new, EthereumService.new,
        Except.ok.injEq] at h1 ⊢
      rw [← h1]
      rfl, by rw [h5 7 samplePeerA]⟩

end EthereumJS
